import Mathlib

/-! Restaurant receptionist: table allocation and signalling.

A shallow embedding of `src/semSharedMemReceptionist.c`.

* C `int` values are `Int`; arrays (`assignedTable`, `groupRecord`, `groupStat`)
  are total maps `Int → Int` read and written at the index the code uses.
* `nGroups` and `NUMTABLES` are counts and are natural numbers.
* The constants of `probConst.h` (not part of the sources at hand) are the
  fields of `ProbConst`, a parameter of every operation that uses one.
* The receptionist's effects are recorded in program order in an event trace.
  Semaphore primitives and `saveState` may fail; the code then calls
  `exit (EXIT_FAILURE)`, which is the result `none` here.
* The model follows the receptionist process alone.
-/

namespace Receptionist

/-! ## Constants -/

/-- Ledger value of a group that has not yet asked for a table. -/
def TOARRIVE : Int := 0
/-- Ledger value of a group queued without a table. -/
def WAIT : Int := 1
/-- Ledger value of a seated group. -/
def ATTABLE : Int := 2
/-- Ledger value of a group that has paid. -/
def DONE : Int := 3

/-- Constants declared in `probConst.h`. -/
structure ProbConst where
  NUMTABLES : Nat
  WAIT_REQUEST : Int
  ASSIGNTABLE : Int
  RECVPAY : Int
  TABLEREQ : Int
  BILLREQ : Int

/-! ## Data model -/

/-- Request passed through the single-slot mailbox. -/
structure request where
  reqType : Int
  reqGroup : Int

/-- Status of every entity (`STAT`). -/
structure STAT where
  chefStat : Int
  waiterStat : Int
  groupStat : Int → Int
  receptionistStat : Int

/-- Full shared state (`FULL_STAT`), the fields the receptionist and the log use. -/
structure FULL_STAT where
  st : STAT
  nGroups : Nat
  groupsWaiting : Int
  assignedTable : Int → Int
  receptionistRequest : request

/-- Semaphores addressed through the shared region. -/
inductive Sem where
  | mutex
  | receptionistReq
  | receptionistRequestPossible
  | waitForTable (g : Int)
  | tableDone (t : Int)
  deriving DecidableEq

/-- Effects of the receptionist, in program order. -/
inductive Event where
  | semDown (s : Sem)
  | semUp (s : Sem)
  | saveState (snap : FULL_STAT)
  | setReceptionistStat (v : Int)
  | setAssignedTable (g : Int) (v : Int)
  | setGroupsWaiting (v : Int)
  | readRequest (r : request)

/-- Everything the receptionist process acts on: the shared region, its
private ledger, the trace of its effects so far, and the outcome of each
external call (`extOk k` tells whether the call issued when the trace holds
`k` events succeeds). -/
structure World where
  fSt : FULL_STAT
  groupRecord : Int → Int
  trace : List Event
  extOk : Nat → Bool

/-- Array store `a[i] = v`. -/
def store (a : Int → Int) (i v : Int) : Int → Int :=
  fun j => if j = i then v else a j

/-! ## Allocation policy -/

/-- Inner loop of `decideTableOrWait`:
`for (g = ...; g < nGroups && assignedTable[g] != table; g++);`, giving the
value of `g` when the loop is left. -/
def scanAssigned (fSt : FULL_STAT) (table : Int) : Nat → Nat → Nat
  | 0, g => g
  | fuel + 1, g =>
    if g < fSt.nGroups ∧ fSt.assignedTable g ≠ table then
      scanAssigned fSt table fuel (g + 1)
    else g

/-- Outer loop of `decideTableOrWait`, from index `table` on. -/
def tableLoop (c : ProbConst) (fSt : FULL_STAT) : Nat → Nat → Int
  | 0, _ => -1
  | fuel + 1, table =>
    if table < c.NUMTABLES then
      if scanAssigned fSt table fSt.nGroups 0 = fSt.nGroups then (table : Int)
      else tableLoop c fSt fuel (table + 1)
    else -1

/-- Table to occupy for group `n`, or `-1` when it must wait. -/
def decideTableOrWait (c : ProbConst) (fSt : FULL_STAT) (_n : Int) : Int :=
  tableLoop c fSt c.NUMTABLES 0

/-- Loop of `decideNextGroup`; `r` is the current value of the local `r`. -/
def nextLoop (fSt : FULL_STAT) (groupRecord : Int → Int) (r : Int) : Nat → Nat → Int
  | 0, _ => r
  | fuel + 1, n =>
    if n < fSt.nGroups then
      if groupRecord n = WAIT then (n : Int)
      else nextLoop fSt groupRecord r fuel (n + 1)
    else r

/-- Group to seat at a table that became vacant, or `-1`. The local `r` is
not initialised in the source; `r0` is the value it happens to hold. -/
def decideNextGroup (fSt : FULL_STAT) (groupRecord : Int → Int) (r0 : Int) : Int :=
  if fSt.groupsWaiting = 0 then -1
  else nextLoop fSt groupRecord r0 fSt.nGroups 0

/-! ## Primitive effects -/

/-- The call `semDown (semgid, s)`; on `-1` the process exits. -/
def semDown (s : Sem) (w : World) : Option World :=
  if w.extOk w.trace.length then
    some { w with trace := w.trace ++ [Event.semDown s] }
  else none

/-- The call `semUp (semgid, s)`; on `-1` the process exits. -/
def semUp (s : Sem) (w : World) : Option World :=
  if w.extOk w.trace.length then
    some { w with trace := w.trace ++ [Event.semUp s] }
  else none

/-- The call `saveState (nFic, &sh->fSt)`: one line for the present full
state; the process exits when the log cannot be opened or closed. -/
def saveState (w : World) : Option World :=
  if w.extOk w.trace.length then
    some { w with trace := w.trace ++ [Event.saveState w.fSt] }
  else none

/-- The store `sh->fSt.st.receptionistStat = v`. -/
def setReceptionistStat (v : Int) (w : World) : World :=
  { w with
    fSt := { w.fSt with st := { w.fSt.st with receptionistStat := v } }
    trace := w.trace ++ [Event.setReceptionistStat v] }

/-- The store `sh->fSt.assignedTable[g] = v`. -/
def setAssignedTable (g v : Int) (w : World) : World :=
  { w with
    fSt := { w.fSt with assignedTable := store w.fSt.assignedTable g v }
    trace := w.trace ++ [Event.setAssignedTable g v] }

/-- The store `sh->fSt.groupsWaiting = v`. -/
def setGroupsWaiting (v : Int) (w : World) : World :=
  { w with
    fSt := { w.fSt with groupsWaiting := v }
    trace := w.trace ++ [Event.setGroupsWaiting v] }

/-- The store `groupRecord[g] = v` into the private ledger. -/
def setGroupRecord (g v : Int) (w : World) : World :=
  { w with groupRecord := store w.groupRecord g v }

/-! ## Receptionist operations -/

/-- Receptionist waits for the next request and returns a copy of it. -/
def waitForGroup (c : ProbConst) (w : World) : Option (request × World) := do
  let w ← semDown Sem.mutex w
  let w := setReceptionistStat c.WAIT_REQUEST w
  let w ← saveState w
  let w ← semUp Sem.mutex w
  let w ← semDown Sem.receptionistReq w
  let w ← semDown Sem.mutex w
  let ret := w.fSt.receptionistRequest
  let w := { w with trace := w.trace ++ [Event.readRequest ret] }
  let w ← semUp Sem.mutex w
  let w ← semUp Sem.receptionistRequestPossible w
  pure (ret, w)

/-- Receptionist decides whether group `n` occupies a table or waits. -/
def provideTableOrWaitingRoom (c : ProbConst) (n : Int) (w : World) : Option World := do
  let w ← semDown Sem.mutex w
  let w := setReceptionistStat c.ASSIGNTABLE w
  let w ← saveState w
  let t := decideTableOrWait c w.fSt n
  let w := setAssignedTable n t w
  let w ←
    if t = -1 then
      some (setGroupRecord n WAIT (setGroupsWaiting (w.fSt.groupsWaiting + 1) w))
    else
      semUp (Sem.waitForTable n) (setGroupRecord n ATTABLE w)
  semUp Sem.mutex w

/-- Branch of `receivePayment` taken when `next_group != -1`. -/
def seatNextGroup (next_group vacant_table : Int) (w : World) : Option World := do
  let w := setAssignedTable next_group vacant_table w
  let w ← semUp (Sem.waitForTable next_group) w
  let w := setGroupsWaiting (w.fSt.groupsWaiting - 1) w
  pure (setGroupRecord next_group ATTABLE w)

/-- Receptionist receives the payment of group `n`; `r0` is the value held
by the uninitialised local of `decideNextGroup`. -/
def receivePayment (c : ProbConst) (n r0 : Int) (w : World) : Option World := do
  let w ← semDown Sem.mutex w
  let w := setReceptionistStat c.RECVPAY w
  let w ← saveState w
  let w := setGroupRecord n DONE w
  let vacant_table := w.fSt.assignedTable n
  let w := setAssignedTable n (-1) w
  let next_group := decideNextGroup w.fSt w.groupRecord r0
  let w ← if next_group ≠ -1 then seatNextGroup next_group vacant_table w else some w
  let w ← semUp Sem.mutex w
  semUp (Sem.tableDone vacant_table) w

/-! ## Runs of the receptionist -/

/-- Number of groups `g < k` whose ledger entry is `WAIT`. -/
def waitingCount (groupRecord : Int → Int) : Nat → Nat
  | 0 => 0
  | k + 1 => waitingCount groupRecord k + (if groupRecord k = WAIT then 1 else 0)

/-- State before the first request: no group holds a table, nobody waits,
every ledger entry is `TOARRIVE`. -/
def InitialState (w : World) : Prop :=
  (∀ g : Int, 0 ≤ g → g < w.fSt.nGroups → w.fSt.assignedTable g = -1) ∧
  w.fSt.groupsWaiting = 0 ∧
  (∀ g : Int, 0 ≤ g → g < w.fSt.nGroups → w.groupRecord g = TOARRIVE)

/-- States met in a valid run: table requests come from groups that have not
yet arrived, bill requests from seated groups. -/
inductive Reachable (c : ProbConst) : World → Prop where
  | init (w : World) : InitialState w → Reachable c w
  | await (w w' : World) (req : request) :
      Reachable c w → waitForGroup c w = some (req, w') → Reachable c w'
  | tableReq (w w' : World) (n : Int) :
      Reachable c w → 0 ≤ n → n < w.fSt.nGroups → w.groupRecord n = TOARRIVE →
      provideTableOrWaitingRoom c n w = some w' → Reachable c w'
  | billReq (w w' : World) (n r0 : Int) :
      Reachable c w → 0 ≤ n → n < w.fSt.nGroups → w.groupRecord n = ATTABLE →
      receivePayment c n r0 w = some w' → Reachable c w'

/-! ## Reading a trace -/

/-- Events an operation appended when it took `w` to `w'`. -/
def opTrace (w w' : World) : List Event :=
  w'.trace.drop w.trace.length

/-- Recognises `semUp` on `s`. -/
def isSemUp (s : Sem) : Event → Bool
  | Event.semUp s' => decide (s' = s)
  | _ => false

/-- Recognises `semDown` on `s`. -/
def isSemDown (s : Sem) : Event → Bool
  | Event.semDown s' => decide (s' = s)
  | _ => false

/-- Recognises `semUp` on any `waitForTable` semaphore. -/
def isTableReadySignal : Event → Bool
  | Event.semUp (Sem.waitForTable _) => true
  | _ => false

/-- Recognises a `saveState` call. -/
def isSaveState : Event → Bool
  | Event.saveState _ => true
  | _ => false

/-- Recognises the read of the request slot. -/
def isReadRequest : Event → Bool
  | Event.readRequest _ => true
  | _ => false

/-- Recognises the store `assignedTable[g] = v`. -/
def isAssign (g v : Int) : Event → Bool
  | Event.setAssignedTable g' v' => decide (g' = g) && decide (v' = v)
  | _ => false

/-- Some event satisfying `p` is followed, later in the trace, by one satisfying `q`. -/
def occursBefore (p q : Event → Bool) : List Event → Bool
  | [] => false
  | e :: es => (p e && es.any q) || occursBefore p q es

/-- Every event of the trace recognised by `p` occurs while the mutex is
held; `held` tells whether it is held when the trace starts. -/
def underMutex (p : Event → Bool) (held : Bool) : List Event → Bool
  | [] => true
  | Event.semDown Sem.mutex :: es => underMutex p true es
  | Event.semUp Sem.mutex :: es => underMutex p false es
  | e :: es => (!p e || held) && underMutex p held es

/-- Every store into the shared state is followed by a `saveState` before the
mutex is released (and before the trace ends); `pending` tells whether a
store is still unsaved when the trace starts. -/
def writesSaved (pending : Bool) : List Event → Bool
  | [] => !pending
  | Event.semUp Sem.mutex :: es => !pending && writesSaved false es
  | Event.saveState _ :: es => writesSaved false es
  | Event.setReceptionistStat _ :: es => writesSaved true es
  | Event.setAssignedTable _ _ :: es => writesSaved true es
  | Event.setGroupsWaiting _ :: es => writesSaved true es
  | _ :: es => writesSaved pending es

/-- Snapshot written by the last `saveState` of the trace. -/
def lastSnapshot : List Event → Option FULL_STAT
  | [] => none
  | Event.saveState snap :: es =>
    match lastSnapshot es with
    | some later => some later
    | none => some snap
  | _ :: es => lastSnapshot es

/-! ## Reading a state -/

/-- Some group `g < nGroups` holds table `t`. -/
def tableHeld (fSt : FULL_STAT) (t : Int) : Prop :=
  ∃ g : Int, 0 ≤ g ∧ g < fSt.nGroups ∧ fSt.assignedTable g = t

/-- Group `g` is the lowest index below `nGroups` whose ledger entry is `WAIT`. -/
def lowestWaiting (fSt : FULL_STAT) (groupRecord : Int → Int) (g : Int) : Prop :=
  0 ≤ g ∧ g < fSt.nGroups ∧ groupRecord g = WAIT ∧
    ∀ i : Int, 0 ≤ i → i < g → groupRecord i ≠ WAIT

/-- Shared state after the store `st.receptionistStat = v`. -/
def withStat (fSt : FULL_STAT) (v : Int) : FULL_STAT :=
  { fSt with st := { fSt.st with receptionistStat := v } }

/-- Shared state of `receivePayment (n)` at the call of `decideNextGroup`:
status `RECVPAY`, `assignedTable[n]` cleared. -/
def paidState (c : ProbConst) (n : Int) (fSt : FULL_STAT) : FULL_STAT :=
  { withStat fSt c.RECVPAY with assignedTable := store fSt.assignedTable n (-1) }

/-- Value `decideNextGroup ()` returns inside `receivePayment (n)` entered in
`w`: it runs on the shared state and ledger updated for the paying group. -/
def nextAfterPayment (c : ProbConst) (n r0 : Int) (w : World) : Int :=
  decideNextGroup (paidState c n w.fSt) (store w.groupRecord n DONE) r0

/-- Agreement of ledger, table assignment and waiting count for `N` groups:
a group is `ATTABLE` exactly when it holds a table, `groupsWaiting` counts
the `WAIT` entries, and no table is held twice. -/
def ConsistentAt (N : Nat) (assignedTable groupRecord : Int → Int) (groupsWaiting : Int) :
    Prop :=
  (∀ g : Int, 0 ≤ g → g < N → (groupRecord g = ATTABLE ↔ assignedTable g ≠ -1)) ∧
  groupsWaiting = waitingCount groupRecord N ∧
  (∀ i j : Int, 0 ≤ i → i < N → 0 ≤ j → j < N → i ≠ j →
    assignedTable i ≠ assignedTable j ∨ (assignedTable i = -1 ∧ assignedTable j = -1))

/-- The agreement `ConsistentAt` for the state of the receptionist. -/
def Consistent (w : World) : Prop :=
  ConsistentAt w.fSt.nGroups w.fSt.assignedTable w.groupRecord w.fSt.groupsWaiting

/-! ## Concrete states -/

/-- Constants of a restaurant with a single table. -/
def oneTable : ProbConst :=
  { NUMTABLES := 1, WAIT_REQUEST := 0, ASSIGNTABLE := 1, RECVPAY := 2,
    TABLEREQ := 1, BILLREQ := 2 }

/-- Every entity in its first status. -/
def idleStat : STAT :=
  { chefStat := 0, waiterStat := 0, groupStat := fun _ => 0, receptionistStat := 0 }

/-- Two groups, before the first request; every external call succeeds. -/
def twoGroupsStart : World :=
  { fSt := { st := idleStat, nGroups := 2, groupsWaiting := 0,
             assignedTable := fun _ => -1,
             receptionistRequest := { reqType := 0, reqGroup := 0 } }
    groupRecord := fun _ => TOARRIVE
    trace := []
    extOk := fun _ => true }

/-- State after the table request of group 0 in `twoGroupsStart`. -/
def afterFirstTable : World :=
  (provideTableOrWaitingRoom oneTable 0 twoGroupsStart).getD twoGroupsStart

/-- State after the table request of group 1 in `afterFirstTable`. -/
def afterSecondTable : World :=
  (provideTableOrWaitingRoom oneTable 1 afterFirstTable).getD afterFirstTable

/-- State after the bill request of group 0 in `afterSecondTable`. -/
def afterFirstBill : World :=
  (receivePayment oneTable 0 7 afterSecondTable).getD afterSecondTable

/-- State after the bill request of group 1 in `afterFirstBill`. -/
def afterSecondBill : World :=
  (receivePayment oneTable 1 7 afterFirstBill).getD afterFirstBill

/-- Every table a group below `nGroups` holds is one of `0 .. NUMTABLES-1`. -/
def TablesInRange (c : ProbConst) (w : World) : Prop :=
  ∀ g : Int, 0 ≤ g → g < w.fSt.nGroups → w.fSt.assignedTable g ≠ -1 →
    0 ≤ w.fSt.assignedTable g ∧ w.fSt.assignedTable g < c.NUMTABLES

/-- While the waiting count is not zero every table is held. -/
def NoIdleTable (c : ProbConst) (w : World) : Prop :=
  w.fSt.groupsWaiting ≠ 0 → ∀ t : Nat, t < c.NUMTABLES → tableHeld w.fSt t

/-- Three groups, before the first request; every external call succeeds. -/
def threeGroupsStart : World :=
  { fSt := { st := idleStat, nGroups := 3, groupsWaiting := 0,
             assignedTable := fun _ => -1,
             receptionistRequest := { reqType := 0, reqGroup := 0 } }
    groupRecord := fun _ => TOARRIVE
    trace := []
    extOk := fun _ => true }

/-- Group 2 asked for a table in `threeGroupsStart` and was seated. -/
def lastGroupSeated : World :=
  (provideTableOrWaitingRoom oneTable 2 threeGroupsStart).getD threeGroupsStart

/-- Then group 1 asked for a table and waits. -/
def middleGroupWaits : World :=
  (provideTableOrWaitingRoom oneTable 1 lastGroupSeated).getD lastGroupSeated

/-- Then group 0 asked for a table and waits too. -/
def firstGroupWaits : World :=
  (provideTableOrWaitingRoom oneTable 0 middleGroupWaits).getD middleGroupWaits

/-- Then group 2 paid. -/
def lastGroupPaid : World :=
  (receivePayment oneTable 2 7 firstGroupWaits).getD firstGroupWaits

/-- Requests a group has made so far, read off its ledger entry: none before
it arrives, one while it waits or sits at a table, two once it has paid. -/
def requestsOf (v : Int) : Nat :=
  if v = DONE then 2 else if v = WAIT ∨ v = ATTABLE then 1 else 0

/-- Requests made so far by the groups `g < k`, read off the ledger. -/
def requestsMade (groupRecord : Int → Int) : Nat → Nat
  | 0 => 0
  | k + 1 => requestsMade groupRecord k + requestsOf (groupRecord k)

/-- `RunFrom c w0 k w`: a valid run takes `w0` to `w` and handles `k` requests
on the way. -/
inductive RunFrom (c : ProbConst) (w0 : World) : Nat → World → Prop where
  | start : RunFrom c w0 0 w0
  | await (k : Nat) (w w' : World) (req : request) :
      RunFrom c w0 k w → waitForGroup c w = some (req, w') → RunFrom c w0 k w'
  | tableReq (k : Nat) (w w' : World) (n : Int) :
      RunFrom c w0 k w → 0 ≤ n → n < w.fSt.nGroups → w.groupRecord n = TOARRIVE →
      provideTableOrWaitingRoom c n w = some w' → RunFrom c w0 (k + 1) w'
  | billReq (k : Nat) (w w' : World) (n r0 : Int) :
      RunFrom c w0 k w → 0 ≤ n → n < w.fSt.nGroups → w.groupRecord n = ATTABLE →
      receivePayment c n r0 w = some w' → RunFrom c w0 (k + 1) w'

/-! ## The log line (`logging.c`) -/

/-- Text `fprintf` writes for `%<width>s`: right-aligned, padded with blanks
on the left, never cut. -/
def padLeft (width : Nat) (s : List Char) : List Char :=
  List.replicate (width - s.length) ' ' ++ s

/-- Text `fprintf` writes for `%<width>d`. -/
def printfD (width : Nat) (v : Int) : List Char :=
  padLeft width (toString v).toList

/-- First loop of `saveState`, from group `g` on:
`fprintf (fic, "%4d", p_fSt->st.groupStat[g])`. -/
def printGroupStat (fSt : FULL_STAT) : Nat → Nat → List Char
  | 0, _ => []
  | fuel + 1, g =>
    if g < fSt.nGroups then
      printfD 4 (fSt.st.groupStat g) ++ printGroupStat fSt fuel (g + 1)
    else []

/-- Second loop of `saveState`, from group `g` on: the table of the group,
or `.` when it has none. -/
def printAssignedTable (fSt : FULL_STAT) : Nat → Nat → List Char
  | 0, _ => []
  | fuel + 1, g =>
    if g < fSt.nGroups then
      (if fSt.assignedTable g ≠ -1 then printfD 4 (fSt.assignedTable g)
       else padLeft 4 ['.'])
        ++ printAssignedTable fSt fuel (g + 1)
    else []

/-- Line `saveState` appends to the log for the full state `fSt`. -/
def saveStateLine (fSt : FULL_STAT) : List Char :=
  printfD 3 fSt.st.chefStat ++ printfD 3 fSt.st.waiterStat ++
    printfD 3 fSt.st.receptionistStat ++ [' '] ++
    printGroupStat fSt fSt.nGroups 0 ++
    printfD 5 fSt.groupsWaiting ++
    printAssignedTable fSt fSt.nGroups 0 ++ ['\n']

/-- Decimal text of `v` right-aligned in `width` columns. -/
def rightAligned (width : Nat) (v : Int) : List Char :=
  List.replicate (width - (toString v).toList.length) ' ' ++ (toString v).toList

/-- The log line without its newline, as the specification lays it out:
three statuses in 3 columns each, one blank, the group statuses in 4 columns
each by ascending group, the waiting count in 5 columns, then by ascending
group the table in 4 columns or `   .` for a group without table. -/
def specifiedFields (fSt : FULL_STAT) : List Char :=
  rightAligned 3 fSt.st.chefStat ++ rightAligned 3 fSt.st.waiterStat ++
    rightAligned 3 fSt.st.receptionistStat ++ [' '] ++
    (List.range fSt.nGroups).flatMap (fun g => rightAligned 4 (fSt.st.groupStat g)) ++
    rightAligned 5 fSt.groupsWaiting ++
    (List.range fSt.nGroups).flatMap
      (fun g => if fSt.assignedTable g = -1 then [' ', ' ', ' ', '.']
                else rightAligned 4 (fSt.assignedTable g))

/-- Every value of the state fits the field the log line gives it. -/
def fitsFields (fSt : FULL_STAT) : Prop :=
  (toString fSt.st.chefStat).toList.length ≤ 3 ∧
  (toString fSt.st.waiterStat).toList.length ≤ 3 ∧
  (toString fSt.st.receptionistStat).toList.length ≤ 3 ∧
  (∀ g : Nat, g < fSt.nGroups → (toString (fSt.st.groupStat g)).toList.length ≤ 4) ∧
  (toString fSt.groupsWaiting).toList.length ≤ 5 ∧
  (∀ g : Nat, g < fSt.nGroups → (toString (fSt.assignedTable g)).toList.length ≤ 4)

/-! ## The life cycle of the receptionist (`main`) -/

/-- Call of a request handler made by the life cycle. -/
inductive Handler where
  | provideTableOrWaitingRoom (n : Int)
  | receivePayment (n : Int)

/-- The shared region once a group has put `req` into the request slot. The
groups are other processes; what they write is an input of the life cycle. -/
def slotFilled (req : request) (w : World) : World :=
  { w with fSt := { w.fSt with receptionistRequest := req } }

/-- The `switch (req.reqType)` of `main`; the result lists the handler that
was called, if any. -/
def dispatch (c : ProbConst) (req : request) (r0 : Int) (w : World) :
    Option (World × List Handler) :=
  if req.reqType = c.TABLEREQ then
    (provideTableOrWaitingRoom c req.reqGroup w).map
      (fun w' => (w', [Handler.provideTableOrWaitingRoom req.reqGroup]))
  else if req.reqType = c.BILLREQ then
    (receivePayment c req.reqGroup r0 w).map
      (fun w' => (w', [Handler.receivePayment req.reqGroup]))
  else some (w, [])

/-- The loop `while (nReq < sh->fSt.nGroups*2)` of `main`, entered with the
counter at `nReq`. `incoming k` is the request the groups have put into the
slot when `waitForGroup` is called for the `k`-th time, `junk k` the value of
the uninitialised local of `decideNextGroup` in that round, `calls` the
handler calls made so far. Without fuel there is no result. -/
def mainLoop (c : ProbConst) (incoming : Nat → request) (junk : Nat → Int) :
    Nat → Nat → World → List Handler → Option (World × List Handler)
  | 0, _, _, _ => none
  | fuel + 1, nReq, w, calls =>
    if nReq < w.fSt.nGroups * 2 then
      match waitForGroup c (slotFilled (incoming nReq) w) with
      | none => none
      | some (req, w1) =>
        match dispatch c req (junk nReq) w1 with
        | none => none
        | some (w2, cs) => mainLoop c incoming junk fuel (nReq + 1) w2 (calls ++ cs)
    else some (w, calls)

/-- Life cycle of the receptionist: the loop of `main` from `nReq = 0`. -/
def lifeCycle (c : ProbConst) (incoming : Nat → request) (junk : Nat → Int) (w : World) :
    Option (World × List Handler) :=
  mainLoop c incoming junk (w.fSt.nGroups * 2 + 1) 0 w []

/-- Requests read from the slot, in the order of the trace. -/
def requestsRead : List Event → List request
  | [] => []
  | Event.readRequest r :: es => r :: requestsRead es
  | _ :: es => requestsRead es

/-- Handler the claim assigns to a request: `provideTableOrWaitingRoom` for a
table request, `receivePayment` for a bill request, with the group of the
request. -/
def handlerFor (c : ProbConst) (req : request) : Handler :=
  if req.reqType = c.TABLEREQ then Handler.provideTableOrWaitingRoom req.reqGroup
  else Handler.receivePayment req.reqGroup

/-- Two rounds of requests for `twoGroupsStart`: both groups ask for a table,
then both pay. -/
def twoGroupsRequests (k : Nat) : request :=
  { reqType := if k < 2 then 1 else 2, reqGroup := (k % 2 : Nat) }

/-! ## The allocation policy: proofs -/

theorem scanAssigned_spec (fSt : FULL_STAT) (table : Int) (fuel : Nat) :
    ∀ g : Nat, g ≤ fSt.nGroups → fSt.nGroups ≤ g + fuel →
      g ≤ scanAssigned fSt table fuel g ∧
      scanAssigned fSt table fuel g ≤ fSt.nGroups ∧
      (∀ i : Nat, g ≤ i → i < scanAssigned fSt table fuel g →
        fSt.assignedTable i ≠ table) ∧
      (scanAssigned fSt table fuel g < fSt.nGroups →
        fSt.assignedTable (scanAssigned fSt table fuel g) = table) := by
  induction fuel with
  | zero =>
    intro g hg hf
    have : g = fSt.nGroups := by omega
    simp only [scanAssigned]
    refine ⟨le_refl _, hg, ?_, ?_⟩
    · intro i h1 h2; omega
    · intro h; omega
  | succ fuel ih =>
    intro g hg hf
    simp only [scanAssigned]
    split
    · rename_i hc
      obtain ⟨h1, h2, h3, h4⟩ := ih (g + 1) (by omega) (by omega)
      refine ⟨by omega, h2, ?_, h4⟩
      intro i hi1 hi2
      rcases Nat.eq_or_lt_of_le hi1 with h | h
      · subst h; exact hc.2
      · exact h3 i (by omega) hi2
    · rename_i hc
      refine ⟨le_refl _, hg, ?_, ?_⟩
      · intro i h1 h2; omega
      · intro h
        by_contra hne
        exact hc ⟨h, hne⟩

theorem scanAssigned_full_iff (fSt : FULL_STAT) (table : Int) :
    scanAssigned fSt table fSt.nGroups 0 = fSt.nGroups ↔ ¬ tableHeld fSt table := by
  obtain ⟨_, h2, h3, h4⟩ :=
    scanAssigned_spec fSt table fSt.nGroups 0 (Nat.zero_le _) (by omega)
  constructor
  · intro h ⟨g, hg0, hg1, hg2⟩
    obtain ⟨k, rfl⟩ := Int.eq_ofNat_of_zero_le hg0
    have hk : k < fSt.nGroups := by exact_mod_cast hg1
    exact h3 k (Nat.zero_le _) (by omega) hg2
  · intro h
    by_contra hne
    have hlt : scanAssigned fSt table fSt.nGroups 0 < fSt.nGroups := by omega
    exact h ⟨_, Int.natCast_nonneg _, by exact_mod_cast hlt, h4 hlt⟩

theorem tableLoop_spec (c : ProbConst) (fSt : FULL_STAT) (fuel : Nat) :
    ∀ table : Nat, table ≤ c.NUMTABLES → c.NUMTABLES ≤ table + fuel →
      (tableLoop c fSt fuel table = -1 ∧
        ∀ t : Nat, table ≤ t → t < c.NUMTABLES → tableHeld fSt t) ∨
      (∃ t : Nat, tableLoop c fSt fuel table = t ∧ table ≤ t ∧ t < c.NUMTABLES ∧
        ¬ tableHeld fSt t ∧ ∀ u : Nat, table ≤ u → u < t → tableHeld fSt u) := by
  induction fuel with
  | zero =>
    intro table h1 h2
    left
    refine ⟨rfl, ?_⟩
    intro t ht1 ht2; omega
  | succ fuel ih =>
    intro table h1 h2
    simp only [tableLoop]
    by_cases hlt : table < c.NUMTABLES
    · rw [if_pos hlt]
      by_cases hfree : ¬ tableHeld fSt table
      · rw [if_pos ((scanAssigned_full_iff fSt table).2 hfree)]
        right
        refine ⟨table, rfl, le_refl _, hlt, hfree, ?_⟩
        intro u hu1 hu2; omega
      · have hheld : tableHeld fSt table := not_not.1 hfree
        rw [if_neg (fun h => (scanAssigned_full_iff fSt table).1 h hheld)]
        rcases ih (table + 1) (by omega) (by omega) with ⟨e, hall⟩ | ⟨t, e, ht1, ht2, ht3, ht4⟩
        · left
          refine ⟨e, ?_⟩
          intro t ht1 ht2
          rcases Nat.eq_or_lt_of_le ht1 with h | h
          · subst h; exact hheld
          · exact hall t (by omega) ht2
        · right
          refine ⟨t, e, by omega, ht2, ht3, ?_⟩
          intro u hu1 hu2
          rcases Nat.eq_or_lt_of_le hu1 with h | h
          · subst h; exact hheld
          · exact ht4 u (by omega) hu2
    · rw [if_neg hlt]
      left
      refine ⟨rfl, ?_⟩
      intro t ht1 ht2; omega

/-- Outcome of `decideTableOrWait`: `-1` with every table held, or the lowest
table no group holds. -/
theorem decideTableOrWait_cases (c : ProbConst) (fSt : FULL_STAT) (n : Int) :
    (decideTableOrWait c fSt n = -1 ∧
      ∀ t : Nat, t < c.NUMTABLES → tableHeld fSt t) ∨
    (∃ t : Nat, decideTableOrWait c fSt n = t ∧ t < c.NUMTABLES ∧
      ¬ tableHeld fSt t ∧ ∀ u : Nat, u < t → tableHeld fSt u) := by
  rcases tableLoop_spec c fSt c.NUMTABLES 0 (Nat.zero_le _) (by omega) with
    ⟨e, hall⟩ | ⟨t, e, _, ht2, ht3, ht4⟩
  · left
    exact ⟨e, fun t ht => hall t (Nat.zero_le _) ht⟩
  · right
    exact ⟨t, e, ht2, ht3, fun u hu => ht4 u (Nat.zero_le _) hu⟩

theorem nextLoop_spec (fSt : FULL_STAT) (groupRecord : Int → Int) (r : Int) (fuel : Nat) :
    ∀ n : Nat, n ≤ fSt.nGroups → fSt.nGroups ≤ n + fuel →
      (nextLoop fSt groupRecord r fuel n = r ∧
        ∀ g : Nat, n ≤ g → g < fSt.nGroups → groupRecord g ≠ WAIT) ∨
      (∃ g : Nat, nextLoop fSt groupRecord r fuel n = g ∧ n ≤ g ∧ g < fSt.nGroups ∧
        groupRecord g = WAIT ∧ ∀ i : Nat, n ≤ i → i < g → groupRecord i ≠ WAIT) := by
  induction fuel with
  | zero =>
    intro n h1 h2
    left
    refine ⟨rfl, ?_⟩
    intro g hg1 hg2; omega
  | succ fuel ih =>
    intro n h1 h2
    simp only [nextLoop]
    by_cases hlt : n < fSt.nGroups
    · rw [if_pos hlt]
      by_cases hw : groupRecord n = WAIT
      · rw [if_pos hw]
        right
        refine ⟨n, rfl, le_refl _, hlt, hw, ?_⟩
        intro i hi1 hi2; omega
      · rw [if_neg hw]
        rcases ih (n + 1) (by omega) (by omega) with ⟨e, hall⟩ | ⟨g, e, hg1, hg2, hg3, hg4⟩
        · left
          refine ⟨e, ?_⟩
          intro g hg1 hg2
          rcases Nat.eq_or_lt_of_le hg1 with h | h
          · subst h; exact hw
          · exact hall g (by omega) hg2
        · right
          refine ⟨g, e, by omega, hg2, hg3, ?_⟩
          intro i hi1 hi2
          rcases Nat.eq_or_lt_of_le hi1 with h | h
          · subst h; exact hw
          · exact hg4 i (by omega) hi2
    · rw [if_neg hlt]
      left
      refine ⟨rfl, ?_⟩
      intro g hg1 hg2; omega

/-- Outcome of `decideNextGroup`: `-1` with nobody counted as waiting, the
lowest waiting group when there is one, the uninitialised local otherwise. -/
theorem decideNextGroup_cases (fSt : FULL_STAT) (groupRecord : Int → Int) (r0 : Int) :
    (fSt.groupsWaiting = 0 ∧ decideNextGroup fSt groupRecord r0 = -1) ∨
    (fSt.groupsWaiting ≠ 0 ∧
      lowestWaiting fSt groupRecord (decideNextGroup fSt groupRecord r0)) ∨
    (fSt.groupsWaiting ≠ 0 ∧ decideNextGroup fSt groupRecord r0 = r0 ∧
      ∀ g : Int, 0 ≤ g → g < fSt.nGroups → groupRecord g ≠ WAIT) := by
  by_cases h0 : fSt.groupsWaiting = 0
  · left
    exact ⟨h0, by simp [decideNextGroup, h0]⟩
  · right
    have e : decideNextGroup fSt groupRecord r0
        = nextLoop fSt groupRecord r0 fSt.nGroups 0 := by
      simp [decideNextGroup, h0]
    rcases nextLoop_spec fSt groupRecord r0 fSt.nGroups 0 (Nat.zero_le _) (by omega) with
      ⟨hr, hall⟩ | ⟨g, hg, _, hg2, hg3, hg4⟩
    · right
      refine ⟨h0, by rw [e, hr], ?_⟩
      intro g hg0 hg1
      obtain ⟨k, rfl⟩ := Int.eq_ofNat_of_zero_le hg0
      exact hall k (Nat.zero_le _) (by exact_mod_cast hg1)
    · left
      refine ⟨h0, ?_⟩
      rw [e, hg]
      refine ⟨Int.natCast_nonneg _, by exact_mod_cast hg2, hg3, ?_⟩
      intro i hi0 hi1
      obtain ⟨k, rfl⟩ := Int.eq_ofNat_of_zero_le hi0
      exact hg4 k (Nat.zero_le _) (by exact_mod_cast hi1)

theorem scanAssigned_congr (fSt fSt' : FULL_STAT) (table : Int)
    (h1 : fSt'.nGroups = fSt.nGroups) (h2 : fSt'.assignedTable = fSt.assignedTable)
    (fuel : Nat) : ∀ g : Nat, scanAssigned fSt' table fuel g = scanAssigned fSt table fuel g := by
  induction fuel with
  | zero => intro g; rfl
  | succ fuel ih =>
    intro g
    simp only [scanAssigned, h1, h2, ih]

theorem tableLoop_congr (c : ProbConst) (fSt fSt' : FULL_STAT)
    (h1 : fSt'.nGroups = fSt.nGroups) (h2 : fSt'.assignedTable = fSt.assignedTable)
    (fuel : Nat) : ∀ table : Nat, tableLoop c fSt' fuel table = tableLoop c fSt fuel table := by
  induction fuel with
  | zero => intro table; rfl
  | succ fuel ih =>
    intro table
    simp only [tableLoop, h1, scanAssigned_congr fSt fSt' _ h1 h2, ih]

theorem decideTableOrWait_withStat (c : ProbConst) (fSt : FULL_STAT) (v n : Int) :
    decideTableOrWait c (withStat fSt v) n = decideTableOrWait c fSt n :=
  tableLoop_congr c fSt (withStat fSt v) rfl rfl _ _

/-! ## The operations: what a call does when no primitive fails -/

theorem provide_wait_run (c : ProbConst) (n : Int) (w : World)
    (hok : ∀ k, w.extOk k = true) (ht : decideTableOrWait c w.fSt n = -1) :
    provideTableOrWaitingRoom c n w = some
      { fSt := { withStat w.fSt c.ASSIGNTABLE with
                  assignedTable := store w.fSt.assignedTable n (-1)
                  groupsWaiting := w.fSt.groupsWaiting + 1 }
        groupRecord := store w.groupRecord n WAIT
        trace := w.trace ++
          [Event.semDown Sem.mutex, Event.setReceptionistStat c.ASSIGNTABLE,
           Event.saveState (withStat w.fSt c.ASSIGNTABLE),
           Event.setAssignedTable n (-1),
           Event.setGroupsWaiting (w.fSt.groupsWaiting + 1),
           Event.semUp Sem.mutex]
        extOk := w.extOk } := by
  have ht' := ht
  rw [← decideTableOrWait_withStat c w.fSt c.ASSIGNTABLE n] at ht'
  simp [provideTableOrWaitingRoom, semDown, semUp, saveState, hok, setReceptionistStat,
    setAssignedTable, setGroupsWaiting, setGroupRecord, withStat] at ht' ⊢
  simp [ht']

theorem provide_seat_run (c : ProbConst) (n : Int) (w : World)
    (hok : ∀ k, w.extOk k = true) (ht : decideTableOrWait c w.fSt n ≠ -1) :
    provideTableOrWaitingRoom c n w = some
      { fSt := { withStat w.fSt c.ASSIGNTABLE with
                  assignedTable :=
                    store w.fSt.assignedTable n (decideTableOrWait c w.fSt n) }
        groupRecord := store w.groupRecord n ATTABLE
        trace := w.trace ++
          [Event.semDown Sem.mutex, Event.setReceptionistStat c.ASSIGNTABLE,
           Event.saveState (withStat w.fSt c.ASSIGNTABLE),
           Event.setAssignedTable n (decideTableOrWait c w.fSt n),
           Event.semUp (Sem.waitForTable n),
           Event.semUp Sem.mutex]
        extOk := w.extOk } := by
  have ht' := ht
  have e := decideTableOrWait_withStat c w.fSt c.ASSIGNTABLE n
  rw [← e] at ht'
  simp only [withStat] at ht' e
  simp [provideTableOrWaitingRoom, semDown, semUp, saveState, hok, setReceptionistStat,
    setAssignedTable, setGroupsWaiting, setGroupRecord, withStat, ht', e, ht]

theorem receive_none_run (c : ProbConst) (n r0 : Int) (w : World)
    (hok : ∀ k, w.extOk k = true) (hg : nextAfterPayment c n r0 w = -1) :
    receivePayment c n r0 w = some
      { fSt := paidState c n w.fSt
        groupRecord := store w.groupRecord n DONE
        trace := w.trace ++
          [Event.semDown Sem.mutex, Event.setReceptionistStat c.RECVPAY,
           Event.saveState (withStat w.fSt c.RECVPAY),
           Event.setAssignedTable n (-1),
           Event.semUp Sem.mutex,
           Event.semUp (Sem.tableDone (w.fSt.assignedTable n))]
        extOk := w.extOk } := by
  simp only [nextAfterPayment, paidState, withStat] at hg
  simp [receivePayment, semDown, semUp, saveState, hok, setReceptionistStat,
    setAssignedTable, setGroupsWaiting, setGroupRecord, withStat, paidState, hg]

theorem receive_seat_run (c : ProbConst) (n r0 : Int) (w : World)
    (hok : ∀ k, w.extOk k = true) (hg : nextAfterPayment c n r0 w ≠ -1) :
    receivePayment c n r0 w = some
      { fSt := { paidState c n w.fSt with
                  assignedTable :=
                    store (store w.fSt.assignedTable n (-1))
                      (nextAfterPayment c n r0 w) (w.fSt.assignedTable n)
                  groupsWaiting := w.fSt.groupsWaiting - 1 }
        groupRecord :=
          store (store w.groupRecord n DONE) (nextAfterPayment c n r0 w) ATTABLE
        trace := w.trace ++
          [Event.semDown Sem.mutex, Event.setReceptionistStat c.RECVPAY,
           Event.saveState (withStat w.fSt c.RECVPAY),
           Event.setAssignedTable n (-1),
           Event.setAssignedTable (nextAfterPayment c n r0 w) (w.fSt.assignedTable n),
           Event.semUp (Sem.waitForTable (nextAfterPayment c n r0 w)),
           Event.setGroupsWaiting (w.fSt.groupsWaiting - 1),
           Event.semUp Sem.mutex,
           Event.semUp (Sem.tableDone (w.fSt.assignedTable n))]
        extOk := w.extOk } := by
  simp only [nextAfterPayment, paidState, withStat] at hg ⊢
  simp [receivePayment, seatNextGroup, semDown, semUp, saveState, hok, setReceptionistStat,
    setAssignedTable, setGroupsWaiting, setGroupRecord, withStat, paidState, hg]

theorem waitForGroup_run (c : ProbConst) (w : World) (hok : ∀ k, w.extOk k = true) :
    waitForGroup c w = some (w.fSt.receptionistRequest,
      { fSt := withStat w.fSt c.WAIT_REQUEST
        groupRecord := w.groupRecord
        trace := w.trace ++
          [Event.semDown Sem.mutex, Event.setReceptionistStat c.WAIT_REQUEST,
           Event.saveState (withStat w.fSt c.WAIT_REQUEST),
           Event.semUp Sem.mutex,
           Event.semDown Sem.receptionistReq,
           Event.semDown Sem.mutex,
           Event.readRequest w.fSt.receptionistRequest,
           Event.semUp Sem.mutex,
           Event.semUp Sem.receptionistRequestPossible]
        extOk := w.extOk }) := by
  simp [waitForGroup, semDown, semUp, saveState, hok, setReceptionistStat, withStat]

/-! ## The operations: what a successful call did -/

theorem guard_bind {α β : Type} (b : Prop) [Decidable b] (x : α) (f : α → Option β) (y : β) :
    ((if b then some x else none).bind f = some y) ↔ (b ∧ f x = some y) := by
  by_cases hb : b <;> simp [hb]

theorem provide_wait_inv (c : ProbConst) (n : Int) (w w' : World)
    (h : provideTableOrWaitingRoom c n w = some w') (ht : decideTableOrWait c w.fSt n = -1) :
    w' =
      { fSt := { withStat w.fSt c.ASSIGNTABLE with
                  assignedTable := store w.fSt.assignedTable n (-1)
                  groupsWaiting := w.fSt.groupsWaiting + 1 }
        groupRecord := store w.groupRecord n WAIT
        trace := w.trace ++
          [Event.semDown Sem.mutex, Event.setReceptionistStat c.ASSIGNTABLE,
           Event.saveState (withStat w.fSt c.ASSIGNTABLE),
           Event.setAssignedTable n (-1),
           Event.setGroupsWaiting (w.fSt.groupsWaiting + 1),
           Event.semUp Sem.mutex]
        extOk := w.extOk } := by
  have ht' := ht
  rw [← decideTableOrWait_withStat c w.fSt c.ASSIGNTABLE n] at ht'
  simp only [withStat] at ht' ⊢
  simp [provideTableOrWaitingRoom, semDown, semUp, saveState, setReceptionistStat,
    setAssignedTable, setGroupsWaiting, setGroupRecord, guard_bind, Option.bind_assoc, ht'] at h
  exact h.2.2.2.symm

theorem provide_seat_inv (c : ProbConst) (n : Int) (w w' : World)
    (h : provideTableOrWaitingRoom c n w = some w') (ht : decideTableOrWait c w.fSt n ≠ -1) :
    w' =
      { fSt := { withStat w.fSt c.ASSIGNTABLE with
                  assignedTable :=
                    store w.fSt.assignedTable n (decideTableOrWait c w.fSt n) }
        groupRecord := store w.groupRecord n ATTABLE
        trace := w.trace ++
          [Event.semDown Sem.mutex, Event.setReceptionistStat c.ASSIGNTABLE,
           Event.saveState (withStat w.fSt c.ASSIGNTABLE),
           Event.setAssignedTable n (decideTableOrWait c w.fSt n),
           Event.semUp (Sem.waitForTable n),
           Event.semUp Sem.mutex]
        extOk := w.extOk } := by
  have ht' := ht
  have e := decideTableOrWait_withStat c w.fSt c.ASSIGNTABLE n
  rw [← e] at ht'
  simp only [withStat] at ht' e ⊢
  simp [provideTableOrWaitingRoom, semDown, semUp, saveState, setReceptionistStat,
    setAssignedTable, setGroupsWaiting, setGroupRecord, guard_bind, Option.bind_assoc, ht'] at h
  rw [e] at h
  exact h.2.2.2.2.symm

theorem receive_none_inv (c : ProbConst) (n r0 : Int) (w w' : World)
    (h : receivePayment c n r0 w = some w') (hg : nextAfterPayment c n r0 w = -1) :
    w' =
      { fSt := paidState c n w.fSt
        groupRecord := store w.groupRecord n DONE
        trace := w.trace ++
          [Event.semDown Sem.mutex, Event.setReceptionistStat c.RECVPAY,
           Event.saveState (withStat w.fSt c.RECVPAY),
           Event.setAssignedTable n (-1),
           Event.semUp Sem.mutex,
           Event.semUp (Sem.tableDone (w.fSt.assignedTable n))]
        extOk := w.extOk } := by
  simp only [nextAfterPayment, paidState, withStat] at hg ⊢
  simp [receivePayment, semDown, semUp, saveState, setReceptionistStat,
    setAssignedTable, setGroupsWaiting, setGroupRecord, guard_bind, Option.bind_assoc, hg] at h
  exact h.2.2.2.2.symm

theorem receive_seat_inv (c : ProbConst) (n r0 : Int) (w w' : World)
    (h : receivePayment c n r0 w = some w') (hg : nextAfterPayment c n r0 w ≠ -1) :
    w' =
      { fSt := { paidState c n w.fSt with
                  assignedTable :=
                    store (store w.fSt.assignedTable n (-1))
                      (nextAfterPayment c n r0 w) (w.fSt.assignedTable n)
                  groupsWaiting := w.fSt.groupsWaiting - 1 }
        groupRecord :=
          store (store w.groupRecord n DONE) (nextAfterPayment c n r0 w) ATTABLE
        trace := w.trace ++
          [Event.semDown Sem.mutex, Event.setReceptionistStat c.RECVPAY,
           Event.saveState (withStat w.fSt c.RECVPAY),
           Event.setAssignedTable n (-1),
           Event.setAssignedTable (nextAfterPayment c n r0 w) (w.fSt.assignedTable n),
           Event.semUp (Sem.waitForTable (nextAfterPayment c n r0 w)),
           Event.setGroupsWaiting (w.fSt.groupsWaiting - 1),
           Event.semUp Sem.mutex,
           Event.semUp (Sem.tableDone (w.fSt.assignedTable n))]
        extOk := w.extOk } := by
  simp only [nextAfterPayment, paidState, withStat] at hg ⊢
  simp [receivePayment, seatNextGroup, semDown, semUp, saveState, setReceptionistStat,
    setAssignedTable, setGroupsWaiting, setGroupRecord, guard_bind, Option.bind_assoc, hg] at h
  exact h.2.2.2.2.2.symm

theorem waitForGroup_inv (c : ProbConst) (w w' : World) (req : request)
    (h : waitForGroup c w = some (req, w')) :
    req = w.fSt.receptionistRequest ∧ w' =
      { fSt := withStat w.fSt c.WAIT_REQUEST
        groupRecord := w.groupRecord
        trace := w.trace ++
          [Event.semDown Sem.mutex, Event.setReceptionistStat c.WAIT_REQUEST,
           Event.saveState (withStat w.fSt c.WAIT_REQUEST),
           Event.semUp Sem.mutex,
           Event.semDown Sem.receptionistReq,
           Event.semDown Sem.mutex,
           Event.readRequest w.fSt.receptionistRequest,
           Event.semUp Sem.mutex,
           Event.semUp Sem.receptionistRequestPossible]
        extOk := w.extOk } := by
  simp only [withStat]
  simp [waitForGroup, semDown, semUp, saveState, setReceptionistStat, guard_bind,
    Option.bind_assoc] at h
  exact ⟨h.2.2.2.2.2.2.2.1.symm, h.2.2.2.2.2.2.2.2.symm⟩

/-! ## Counting the waiting groups -/

theorem waitingCount_store (groupRecord : Int → Int) (n v : Int) (k : Nat) :
    waitingCount (store groupRecord n v) k
        + (if 0 ≤ n ∧ n < k ∧ groupRecord n = WAIT then 1 else 0)
      = waitingCount groupRecord k + (if 0 ≤ n ∧ n < k ∧ v = WAIT then 1 else 0) := by
  induction k with
  | zero =>
    have h : ¬ (0 ≤ n ∧ n < ((0 : Nat) : Int) ∧ groupRecord n = WAIT) := by
      intro ⟨h1, h2, _⟩; omega
    have h' : ¬ (0 ≤ n ∧ n < ((0 : Nat) : Int) ∧ v = WAIT) := by
      intro ⟨h1, h2, _⟩; omega
    simp only [waitingCount, if_neg h, if_neg h']
  | succ k ih =>
    simp only [waitingCount]
    by_cases hnk : n = (k : Int)
    · subst hnk
      have e1 : store groupRecord (k : Int) v (k : Int) = v := by simp [store]
      rw [e1]
      have hlt : ¬ ((k : Int) < (k : Int)) := lt_irrefl _
      have h0 : (0 : Int) ≤ (k : Int) := Int.natCast_nonneg _
      have hs : (k : Int) < ((k + 1 : Nat) : Int) := by push_cast; omega
      simp only [hlt, false_and, and_false, if_false, add_zero, h0, hs, true_and] at ih ⊢
      rw [ih]
      omega
    · have e1 : store groupRecord n v (k : Int) = groupRecord (k : Int) := by
        simp only [store]
        rw [if_neg (fun h => hnk h.symm)]
      rw [e1]
      have hiff : n < ((k + 1 : Nat) : Int) ↔ n < (k : Int) := by
        push_cast; omega
      simp only [hiff]
      omega

theorem waitingCount_eq_zero (groupRecord : Int → Int) (k : Nat)
    (h : ∀ g : Int, 0 ≤ g → g < k → groupRecord g ≠ WAIT) :
    waitingCount groupRecord k = 0 := by
  induction k with
  | zero => rfl
  | succ k ih =>
    simp only [waitingCount]
    rw [ih (fun g h0 h1 => h g h0 (by push_cast; omega)),
      if_neg (h k (Int.natCast_nonneg _) (by push_cast; omega))]

theorem waitingCount_store_keep (groupRecord : Int → Int) (n v : Int) (k : Nat)
    (h1 : groupRecord n ≠ WAIT) (h2 : v ≠ WAIT) :
    waitingCount (store groupRecord n v) k = waitingCount groupRecord k := by
  have h := waitingCount_store groupRecord n v k
  simp only [h1, h2, and_false, if_false, add_zero] at h
  exact h

theorem waitingCount_store_wait (groupRecord : Int → Int) (n : Int) (k : Nat)
    (h0 : 0 ≤ n) (hk : n < k) (h1 : groupRecord n ≠ WAIT) :
    waitingCount (store groupRecord n WAIT) k = waitingCount groupRecord k + 1 := by
  have h := waitingCount_store groupRecord n WAIT k
  simp only [h1, and_false, if_false, add_zero, h0, hk, and_self, if_true] at h
  exact h

theorem waitingCount_store_leave (groupRecord : Int → Int) (n v : Int) (k : Nat)
    (h0 : 0 ≤ n) (hk : n < k) (h1 : groupRecord n = WAIT) (h2 : v ≠ WAIT) :
    waitingCount (store groupRecord n v) k + 1 = waitingCount groupRecord k := by
  have h := waitingCount_store groupRecord n v k
  simp only [h1, h2, and_false, if_false, add_zero, h0, hk, and_self, if_true] at h
  exact h

/-! ## The agreement of ledger and shared state is kept by every step -/

theorem consistentAt_wait (N : Nat) (a r : Int → Int) (gw n : Int)
    (h : ConsistentAt N a r gw) (h0 : 0 ≤ n) (hN : n < N) (hr : r n = TOARRIVE) :
    ConsistentAt N (store a n (-1)) (store r n WAIT) (gw + 1) := by
  obtain ⟨ha, hb, hc⟩ := h
  have hnw : r n ≠ WAIT := by rw [hr]; decide
  have han : a n = -1 := by
    by_contra hne
    have := (ha n h0 hN).2 hne
    rw [hr] at this
    exact absurd this (by decide)
  have hsame : ∀ g, store a n (-1) g = a g := by
    intro g
    simp only [store]
    split
    · rename_i hg; rw [hg, han]
    · rfl
  refine ⟨?_, ?_, ?_⟩
  · intro g hg0 hgN
    rw [hsame]
    by_cases hgn : g = n
    · subst hgn
      simp only [store, if_true, han]
      constructor
      · intro hw; exact absurd hw (by decide)
      · intro hne; exact absurd rfl hne
    · simp only [store, if_neg hgn]
      exact ha g hg0 hgN
  · rw [waitingCount_store_wait r n N h0 hN hnw, hb]
    push_cast; rfl
  · intro i j hi0 hiN hj0 hjN hij
    rw [hsame, hsame]
    exact hc i j hi0 hiN hj0 hjN hij

theorem consistentAt_seat (N : Nat) (a r : Int → Int) (gw n t : Int)
    (h : ConsistentAt N a r gw) (h0 : 0 ≤ n) (hN : n < N) (hr : r n = TOARRIVE)
    (ht : t ≠ -1) (hfree : ∀ g : Int, 0 ≤ g → g < N → a g ≠ t) :
    ConsistentAt N (store a n t) (store r n ATTABLE) gw := by
  obtain ⟨ha, hb, hc⟩ := h
  have hnw : r n ≠ WAIT := by rw [hr]; decide
  refine ⟨?_, ?_, ?_⟩
  · intro g hg0 hgN
    by_cases hgn : g = n
    · subst hgn
      simp only [store, if_true]
      exact ⟨fun _ => ht, fun _ => trivial⟩
    · simp only [store, if_neg hgn]
      exact ha g hg0 hgN
  · rw [waitingCount_store_keep r n ATTABLE N hnw (by decide)]
    exact hb
  · intro i j hi0 hiN hj0 hjN hij
    by_cases hin : i = n
    · subst hin
      have hji : ¬ j = i := fun e => hij e.symm
      simp only [store, if_true, if_neg hji]
      left
      exact fun e => hfree j hj0 hjN e.symm
    · by_cases hjn : j = n
      · subst hjn
        simp only [store, if_true, if_neg hin]
        left
        exact hfree i hi0 hiN
      · simp only [store, if_neg hin, if_neg hjn]
        exact hc i j hi0 hiN hj0 hjN hij

theorem consistentAt_paid (N : Nat) (a r : Int → Int) (gw n : Int)
    (h : ConsistentAt N a r gw) (hr : r n = ATTABLE) :
    ConsistentAt N (store a n (-1)) (store r n DONE) gw := by
  obtain ⟨ha, hb, hc⟩ := h
  have hnw : r n ≠ WAIT := by rw [hr]; decide
  refine ⟨?_, ?_, ?_⟩
  · intro g hg0 hgN
    by_cases hgn : g = n
    · subst hgn
      simp only [store, if_true]
      constructor
      · intro hw; exact absurd hw (by decide)
      · intro hne; exact absurd rfl hne
    · simp only [store, if_neg hgn]
      exact ha g hg0 hgN
  · rw [waitingCount_store_keep r n DONE N hnw (by decide)]
    exact hb
  · intro i j hi0 hiN hj0 hjN hij
    by_cases hin : i = n
    · subst hin
      have hji : ¬ j = i := fun e => hij e.symm
      simp only [store, if_true, if_neg hji]
      by_cases hj : a j = -1
      · right; exact ⟨trivial, hj⟩
      · left; exact fun e => hj e.symm
    · by_cases hjn : j = n
      · subst hjn
        simp only [store, if_true, if_neg hin]
        by_cases hi : a i = -1
        · right; exact ⟨hi, trivial⟩
        · left; exact hi
      · simp only [store, if_neg hin, if_neg hjn]
        exact hc i j hi0 hiN hj0 hjN hij

theorem consistentAt_reseat (N : Nat) (a r : Int → Int) (gw n g : Int)
    (h : ConsistentAt N a r gw) (h0 : 0 ≤ n) (hN : n < N) (hr : r n = ATTABLE)
    (hg0 : 0 ≤ g) (hgN : g < N) (hgw : store r n DONE g = WAIT) :
    ConsistentAt N (store (store a n (-1)) g (a n)) (store (store r n DONE) g ATTABLE)
      (gw - 1) := by
  have hv : a n ≠ -1 := (h.1 n h0 hN).1 hr
  have hgn : g ≠ n := by
    intro e
    rw [e] at hgw
    simp only [store, if_true] at hgw
    exact absurd hgw (by decide)
  have hrg : r g = WAIT := by
    simp only [store, if_neg hgn] at hgw
    exact hgw
  have hag : a g = -1 := by
    by_contra hne
    have := (h.1 g hg0 hgN).2 hne
    rw [hrg] at this
    exact absurd this (by decide)
  have hold := h.2.2
  obtain ⟨ha, hb, hc⟩ := consistentAt_paid N a r gw n h hr
  refine ⟨?_, ?_, ?_⟩
  · intro k hk0 hkN
    by_cases hkg : k = g
    · subst hkg
      simp only [store, if_true]
      exact ⟨fun _ => hv, fun _ => trivial⟩
    · rw [show store (store r n DONE) g ATTABLE k = store r n DONE k by
            simp only [store, if_neg hkg],
          show store (store a n (-1)) g (a n) k = store a n (-1) k by
            simp only [store, if_neg hkg]]
      exact ha k hk0 hkN
  · have := waitingCount_store_leave (store r n DONE) g ATTABLE N hg0 hgN hgw (by decide)
    rw [hb]
    omega
  · have hother : ∀ j : Int, 0 ≤ j → j < N → j ≠ g → store a n (-1) j ≠ a n := by
      intro j hj0 hjN hjg
      by_cases hjn : j = n
      · subst hjn
        simp only [store, if_true]
        exact fun e => hv e.symm
      · simp only [store, if_neg hjn]
        rcases hold j n hj0 hjN h0 hN hjn with hne | ⟨_, hn1⟩
        · exact hne
        · exact absurd hn1 hv
    intro i j hi0 hiN hj0 hjN hij
    by_cases hig : i = g
    · subst hig
      have hji : ¬ j = i := fun e => hij e.symm
      rw [show store (store a n (-1)) i (a n) i = a n by simp only [store, if_true],
          show store (store a n (-1)) i (a n) j = store a n (-1) j by
            simp only [store, if_neg hji]]
      left
      exact fun e => hother j hj0 hjN hji e.symm
    · by_cases hjg : j = g
      · subst hjg
        rw [show store (store a n (-1)) j (a n) j = a n by simp only [store, if_true],
            show store (store a n (-1)) j (a n) i = store a n (-1) i by
              simp only [store, if_neg hig]]
        left
        exact hother i hi0 hiN hig
      · rw [show store (store a n (-1)) g (a n) i = store a n (-1) i by
              simp only [store, if_neg hig],
            show store (store a n (-1)) g (a n) j = store a n (-1) j by
              simp only [store, if_neg hjg]]
        exact hc i j hi0 hiN hj0 hjN hij

theorem initial_consistent (w : World) (h : InitialState w) : Consistent w := by
  obtain ⟨ha, hg, hr⟩ := h
  refine ⟨?_, ?_, ?_⟩
  · intro g h0 hN
    rw [hr g h0 hN, ha g h0 hN]
    constructor
    · intro e; exact absurd e (by decide)
    · intro e; exact absurd rfl e
  · rw [hg, waitingCount_eq_zero w.groupRecord w.fSt.nGroups
      (fun g h0 hN => by rw [hr g h0 hN]; decide)]
    rfl
  · intro i j hi0 hiN hj0 hjN _
    right
    exact ⟨ha i hi0 hiN, ha j hj0 hjN⟩

theorem waitForGroup_consistent (c : ProbConst) (w w' : World) (req : request)
    (hc : Consistent w) (h : waitForGroup c w = some (req, w')) : Consistent w' := by
  rw [(waitForGroup_inv c w w' req h).2]
  exact hc

theorem provide_consistent (c : ProbConst) (n : Int) (w w' : World)
    (hc : Consistent w) (h0 : 0 ≤ n) (hN : n < w.fSt.nGroups)
    (hr : w.groupRecord n = TOARRIVE)
    (h : provideTableOrWaitingRoom c n w = some w') : Consistent w' := by
  by_cases ht : decideTableOrWait c w.fSt n = -1
  · rw [provide_wait_inv c n w w' h ht]
    exact consistentAt_wait _ _ _ _ n hc h0 hN hr
  · rw [provide_seat_inv c n w w' h ht]
    refine consistentAt_seat _ _ _ _ n _ hc h0 hN hr ht ?_
    rcases decideTableOrWait_cases c w.fSt n with ⟨e, _⟩ | ⟨t, e, _, hfree, _⟩
    · exact absurd e ht
    · intro g hg0 hgN hg
      rw [e] at hg
      exact hfree ⟨g, hg0, hgN, hg⟩

/-- In a consistent state the value `decideNextGroup` returns inside
`receivePayment`, when it is not `-1`, is a group marked `WAIT`. -/
theorem next_is_waiting (c : ProbConst) (n r0 : Int) (w : World)
    (hc : Consistent w) (hr : w.groupRecord n = ATTABLE)
    (hg : nextAfterPayment c n r0 w ≠ -1) :
    lowestWaiting w.fSt (store w.groupRecord n DONE) (nextAfterPayment c n r0 w) := by
  rcases decideNextGroup_cases (paidState c n w.fSt) (store w.groupRecord n DONE) r0 with
    ⟨_, e⟩ | ⟨_, hl⟩ | ⟨hne, _, hall⟩
  · exact absurd e hg
  · exact hl
  · exfalso
    have hz := waitingCount_eq_zero (store w.groupRecord n DONE) w.fSt.nGroups hall
    rw [waitingCount_store_keep w.groupRecord n DONE w.fSt.nGroups
      (by rw [hr]; decide) (by decide)] at hz
    have hb : w.fSt.groupsWaiting = (waitingCount w.groupRecord w.fSt.nGroups : Int) := hc.2.1
    rw [hz] at hb
    exact hne hb

theorem receive_consistent (c : ProbConst) (n r0 : Int) (w w' : World)
    (hc : Consistent w) (h0 : 0 ≤ n) (hN : n < w.fSt.nGroups)
    (hr : w.groupRecord n = ATTABLE)
    (h : receivePayment c n r0 w = some w') : Consistent w' := by
  by_cases hg : nextAfterPayment c n r0 w = -1
  · rw [receive_none_inv c n r0 w w' h hg]
    exact consistentAt_paid _ _ _ _ n hc hr
  · rw [receive_seat_inv c n r0 w w' h hg]
    obtain ⟨hg0, hgN, hgw, _⟩ := next_is_waiting c n r0 w hc hr hg
    exact consistentAt_reseat _ _ _ _ n _ hc h0 hN hr hg0 hgN hgw

theorem reachable_consistent (c : ProbConst) (w : World) (h : Reachable c w) :
    Consistent w := by
  induction h with
  | init w hi => exact initial_consistent w hi
  | await w w' req _ hs ih => exact waitForGroup_consistent c w w' req ih hs
  | tableReq w w' n _ h0 hN hr hs ih => exact provide_consistent c n w w' ih h0 hN hr hs
  | billReq w w' n r0 _ h0 hN hr hs ih => exact receive_consistent c n r0 w w' ih h0 hN hr hs

theorem reachable_afterFirstTable : Reachable oneTable afterFirstTable :=
  Reachable.tableReq twoGroupsStart afterFirstTable 0
    (Reachable.init twoGroupsStart ⟨fun _ _ _ => rfl, rfl, fun _ _ _ => rfl⟩)
    (by decide) (by decide) rfl rfl

theorem reachable_afterSecondTable : Reachable oneTable afterSecondTable :=
  Reachable.tableReq afterFirstTable afterSecondTable 1 reachable_afterFirstTable
    (by decide) (by decide) rfl rfl

theorem opTrace_of_append (w w' : World) (L : List Event)
    (h : w'.trace = w.trace ++ L) : opTrace w w' = L := by
  simp [opTrace, h]

/-! ## The claims -/

/-- C1: for every state and every argument `n`, `decideTableOrWait (n)` is
either `-1`, and then every table `0 .. NUMTABLES-1` is held by some group
`g < nGroups`, or a table `t < NUMTABLES` that no group holds while every
table below `t` is held; and it gives the same answer in any other state,
for any other argument, in which the same tables are held. -/
theorem decideTableOrWait_lowest_free (c : ProbConst) (fSt : FULL_STAT) (n : Int) :
    ((decideTableOrWait c fSt n = -1 ∧
        ∀ t : Nat, t < c.NUMTABLES → tableHeld fSt t) ∨
      (∃ t : Nat, decideTableOrWait c fSt n = t ∧ t < c.NUMTABLES ∧
        ¬ tableHeld fSt t ∧ ∀ u : Nat, u < t → tableHeld fSt u)) ∧
    (∀ (fSt' : FULL_STAT) (n' : Int),
      (∀ t : Nat, t < c.NUMTABLES → (tableHeld fSt' t ↔ tableHeld fSt t)) →
      decideTableOrWait c fSt' n' = decideTableOrWait c fSt n) := by
  refine ⟨decideTableOrWait_cases c fSt n, ?_⟩
  intro fSt' n' hsame
  rcases decideTableOrWait_cases c fSt n with ⟨e, hall⟩ | ⟨t, e, ht, hfree, hbelow⟩ <;>
    rcases decideTableOrWait_cases c fSt' n' with
      ⟨e', hall'⟩ | ⟨t', e', ht', hfree', hbelow'⟩
  · rw [e, e']
  · exact absurd ((hsame t' ht').2 (hall t' ht')) hfree'
  · exact absurd ((hsame t ht).1 (hall' t ht)) hfree
  · rw [e, e']
    rcases Nat.lt_trichotomy t t' with h | h | h
    · exact absurd (hbelow' t h) (fun hh => hfree ((hsame t ht).1 hh))
    · rw [h]
    · exact absurd ((hsame t' ht').2 (hbelow t' h)) hfree'

/-- C3: in every state reachable by a valid run, two distinct groups below
`nGroups` never hold the same table: their `assignedTable` entries differ
unless both are `-1`. -/
theorem table_uniqueness (c : ProbConst) (w : World) (h : Reachable c w)
    (i j : Int) (hi0 : 0 ≤ i) (hiN : i < w.fSt.nGroups) (hj0 : 0 ≤ j)
    (hjN : j < w.fSt.nGroups) (hij : i ≠ j) :
    w.fSt.assignedTable i ≠ w.fSt.assignedTable j ∨
      (w.fSt.assignedTable i = -1 ∧ w.fSt.assignedTable j = -1) :=
  (reachable_consistent c w h).2.2 i j hi0 hiN hj0 hjN hij

theorem table_uniqueness_witness :
    Reachable oneTable afterSecondTable ∧
    (afterSecondTable.fSt.assignedTable 0 ≠ afterSecondTable.fSt.assignedTable 1 ∨
      (afterSecondTable.fSt.assignedTable 0 = -1 ∧
        afterSecondTable.fSt.assignedTable 1 = -1)) :=
  ⟨reachable_afterSecondTable,
    table_uniqueness oneTable afterSecondTable reachable_afterSecondTable 0 1
      (by decide) (by decide) (by decide) (by decide) (by decide)⟩

/-- C4: in every state reachable by a valid run, `groupsWaiting` equals the
number of groups below `nGroups` whose ledger entry is `WAIT`. -/
theorem waiting_count_consistency (c : ProbConst) (w : World) (h : Reachable c w) :
    w.fSt.groupsWaiting = waitingCount w.groupRecord w.fSt.nGroups :=
  (reachable_consistent c w h).2.1

theorem waiting_count_consistency_witness :
    Reachable oneTable afterSecondTable ∧
    afterSecondTable.fSt.groupsWaiting =
      waitingCount afterSecondTable.groupRecord afterSecondTable.fSt.nGroups ∧
    afterSecondTable.fSt.groupsWaiting = 1 :=
  ⟨reachable_afterSecondTable,
    waiting_count_consistency oneTable afterSecondTable reachable_afterSecondTable, rfl⟩

/-- C5: when no primitive fails, `provideTableOrWaitingRoom (n)` returns and
leaves `receptionistStat = ASSIGNTABLE`. With `t = decideTableOrWait (n)` on
the entry state: if `t = -1` then afterwards `assignedTable[n] = -1`,
`groupsWaiting` is one more, `groupRecord[n] = WAIT` and the call made no
`semUp` on a `waitForTable` semaphore; otherwise `assignedTable[n] = t`,
`groupRecord[n] = ATTABLE`, `groupsWaiting` is unchanged and the call made
exactly one `semUp` on a `waitForTable` semaphore, the one of group `n`. No
other group's `assignedTable` or ledger entry changes. -/
theorem provideTableOrWaitingRoom_effect (c : ProbConst) (n : Int) (w : World)
    (hok : ∀ k, w.extOk k = true) :
    ∃ w', provideTableOrWaitingRoom c n w = some w' ∧
      w'.fSt.st.receptionistStat = c.ASSIGNTABLE ∧
      ((decideTableOrWait c w.fSt n = -1 ∧
          w'.fSt.assignedTable n = -1 ∧
          w'.fSt.groupsWaiting = w.fSt.groupsWaiting + 1 ∧
          w'.groupRecord n = WAIT ∧
          (opTrace w w').countP isTableReadySignal = 0) ∨
        (decideTableOrWait c w.fSt n ≠ -1 ∧
          w'.fSt.assignedTable n = decideTableOrWait c w.fSt n ∧
          w'.groupRecord n = ATTABLE ∧
          w'.fSt.groupsWaiting = w.fSt.groupsWaiting ∧
          (opTrace w w').countP isTableReadySignal = 1 ∧
          (opTrace w w').countP (isSemUp (Sem.waitForTable n)) = 1)) ∧
      (∀ g : Int, g ≠ n →
        w'.fSt.assignedTable g = w.fSt.assignedTable g ∧
        w'.groupRecord g = w.groupRecord g) := by
  by_cases ht : decideTableOrWait c w.fSt n = -1
  · refine ⟨_, provide_wait_run c n w hok ht, rfl, Or.inl ⟨ht, ?_, rfl, ?_, ?_⟩, ?_⟩
    · simp [store]
    · simp [store]
    · rw [opTrace_of_append w _ _ rfl]
      simp [isTableReadySignal]
    · intro g hg
      simp [store, hg]
  · refine ⟨_, provide_seat_run c n w hok ht, rfl, Or.inr ⟨ht, ?_, ?_, rfl, ?_, ?_⟩, ?_⟩
    · simp [store]
    · simp [store]
    · rw [opTrace_of_append w _ _ rfl]
      simp [isTableReadySignal]
    · rw [opTrace_of_append w _ _ rfl]
      simp [isSemUp]
    · intro g hg
      simp [store, hg]

theorem provideTableOrWaitingRoom_effect_witness :
    (∀ k, twoGroupsStart.extOk k = true) ∧
    ∃ w', provideTableOrWaitingRoom oneTable 0 twoGroupsStart = some w' ∧
      w'.fSt.st.receptionistStat = oneTable.ASSIGNTABLE ∧
      ((decideTableOrWait oneTable twoGroupsStart.fSt 0 = -1 ∧
          w'.fSt.assignedTable 0 = -1 ∧
          w'.fSt.groupsWaiting = twoGroupsStart.fSt.groupsWaiting + 1 ∧
          w'.groupRecord 0 = WAIT ∧
          (opTrace twoGroupsStart w').countP isTableReadySignal = 0) ∨
        (decideTableOrWait oneTable twoGroupsStart.fSt 0 ≠ -1 ∧
          w'.fSt.assignedTable 0 = decideTableOrWait oneTable twoGroupsStart.fSt 0 ∧
          w'.groupRecord 0 = ATTABLE ∧
          w'.fSt.groupsWaiting = twoGroupsStart.fSt.groupsWaiting ∧
          (opTrace twoGroupsStart w').countP isTableReadySignal = 1 ∧
          (opTrace twoGroupsStart w').countP (isSemUp (Sem.waitForTable 0)) = 1)) ∧
      (∀ g : Int, g ≠ 0 →
        w'.fSt.assignedTable g = twoGroupsStart.fSt.assignedTable g ∧
        w'.groupRecord g = twoGroupsStart.groupRecord g) :=
  ⟨fun _ => rfl, provideTableOrWaitingRoom_effect oneTable 0 twoGroupsStart (fun _ => rfl)⟩

/-- C6: when no primitive fails, `receivePayment (n)` returns and leaves
`receptionistStat = RECVPAY`. It marks `groupRecord[n] = DONE` and clears
`assignedTable[n]`, and on that state evaluates `g = decideNextGroup ()`;
`v` is the table `n` held at entry. If `g != -1` then afterwards
`assignedTable[g] = v`, `groupRecord[g] = ATTABLE`, `groupsWaiting` is one
less, and the call made exactly one `semUp` on a `waitForTable` semaphore,
the one of group `g`. If `g = -1` then `groupsWaiting` and every other
group's `assignedTable` and ledger entry are unchanged and the call made no
`semUp` on a `waitForTable` semaphore. -/
theorem receivePayment_effect (c : ProbConst) (n r0 : Int) (w : World)
    (hok : ∀ k, w.extOk k = true) :
    ∃ w', receivePayment c n r0 w = some w' ∧
      w'.fSt.st.receptionistStat = c.RECVPAY ∧
      (paidState c n w.fSt).st.receptionistStat = c.RECVPAY ∧
      (paidState c n w.fSt).assignedTable n = -1 ∧
      store w.groupRecord n DONE n = DONE ∧
      ((nextAfterPayment c n r0 w ≠ -1 ∧
          w'.fSt.assignedTable (nextAfterPayment c n r0 w) = w.fSt.assignedTable n ∧
          w'.groupRecord (nextAfterPayment c n r0 w) = ATTABLE ∧
          w'.fSt.groupsWaiting = w.fSt.groupsWaiting - 1 ∧
          (opTrace w w').countP (isSemUp (Sem.waitForTable (nextAfterPayment c n r0 w))) = 1 ∧
          (opTrace w w').countP isTableReadySignal = 1 ∧
          (nextAfterPayment c n r0 w ≠ n →
            w'.fSt.assignedTable n = -1 ∧ w'.groupRecord n = DONE) ∧
          (∀ g : Int, g ≠ n → g ≠ nextAfterPayment c n r0 w →
            w'.fSt.assignedTable g = w.fSt.assignedTable g ∧
            w'.groupRecord g = w.groupRecord g)) ∨
        (nextAfterPayment c n r0 w = -1 ∧
          w'.fSt.assignedTable n = -1 ∧
          w'.groupRecord n = DONE ∧
          w'.fSt.groupsWaiting = w.fSt.groupsWaiting ∧
          (∀ g : Int, g ≠ n →
            w'.fSt.assignedTable g = w.fSt.assignedTable g ∧
            w'.groupRecord g = w.groupRecord g) ∧
          (opTrace w w').countP isTableReadySignal = 0)) := by
  have hp1 : (paidState c n w.fSt).st.receptionistStat = c.RECVPAY := rfl
  have hp2 : (paidState c n w.fSt).assignedTable n = -1 := by simp [paidState, store]
  have hp3 : store w.groupRecord n DONE n = DONE := by simp [store]
  by_cases hg : nextAfterPayment c n r0 w = -1
  · refine ⟨_, receive_none_run c n r0 w hok hg, rfl, hp1, hp2, hp3,
      Or.inr ⟨hg, hp2, hp3, rfl, ?_, ?_⟩⟩
    · intro g hgn
      simp [paidState, withStat, store, hgn]
    · rw [opTrace_of_append w _ _ rfl]
      simp [isTableReadySignal]
  · refine ⟨_, receive_seat_run c n r0 w hok hg, rfl, hp1, hp2, hp3,
      Or.inl ⟨hg, ?_, ?_, rfl, ?_, ?_, ?_, ?_⟩⟩
    · simp [store]
    · simp [store]
    · rw [opTrace_of_append w _ _ rfl]
      simp [isSemUp]
    · rw [opTrace_of_append w _ _ rfl]
      simp [isTableReadySignal]
    · intro hne
      have hne' : ¬ n = nextAfterPayment c n r0 w := fun e => hne e.symm
      simp [store, hne']
    · intro g hgn hgg
      simp [store, hgn, hgg]

theorem receivePayment_effect_witness :
    (∀ k, afterSecondTable.extOk k = true) ∧
    ∃ w', receivePayment oneTable 0 7 afterSecondTable = some w' ∧
      w'.fSt.assignedTable 1 = 0 ∧ w'.fSt.assignedTable 0 = -1 ∧
      w'.fSt.groupsWaiting = 0 := by
  refine ⟨fun _ => rfl, ?_⟩
  obtain ⟨w', h, _⟩ := receivePayment_effect oneTable 0 7 afterSecondTable (fun _ => rfl)
  refine ⟨w', h, ?_⟩
  have e : receivePayment oneTable 0 7 afterSecondTable
      = some ((receivePayment oneTable 0 7 afterSecondTable).getD afterSecondTable) := rfl
  rw [e] at h
  rw [← Option.some.inj h]
  exact ⟨rfl, rfl, rfl⟩

/-- C7: when no primitive fails, the trace of `receivePayment (n)` holds
exactly one `semUp` on `tableDone[v]`, `v` being the table `n` held at
entry, whether or not a waiting group was seated; the trace ends with the
`semUp` on the mutex, its only release, followed by that `semUp`. -/
theorem receivePayment_tableDone (c : ProbConst) (n r0 : Int) (w : World)
    (hok : ∀ k, w.extOk k = true) :
    ∃ w', receivePayment c n r0 w = some w' ∧
      (opTrace w w').countP (isSemUp (Sem.tableDone (w.fSt.assignedTable n))) = 1 ∧
      (opTrace w w').countP (isSemUp Sem.mutex) = 1 ∧
      occursBefore (isSemUp Sem.mutex)
        (isSemUp (Sem.tableDone (w.fSt.assignedTable n))) (opTrace w w') = true ∧
      occursBefore (isSemUp (Sem.tableDone (w.fSt.assignedTable n)))
        (isSemUp Sem.mutex) (opTrace w w') = false ∧
      ∃ pre, opTrace w w' =
        pre ++ [Event.semUp Sem.mutex, Event.semUp (Sem.tableDone (w.fSt.assignedTable n))] := by
  by_cases hg : nextAfterPayment c n r0 w = -1
  · refine ⟨_, receive_none_run c n r0 w hok hg, ?_⟩
    rw [opTrace_of_append w _ _ rfl]
    refine ⟨by simp [isSemUp], by simp [isSemUp], by simp [occursBefore, isSemUp],
      by simp [occursBefore, isSemUp], ⟨_ :: _ :: _ :: [_], rfl⟩⟩
  · refine ⟨_, receive_seat_run c n r0 w hok hg, ?_⟩
    rw [opTrace_of_append w _ _ rfl]
    refine ⟨by simp [isSemUp], by simp [isSemUp], by simp [occursBefore, isSemUp],
      by simp [occursBefore, isSemUp], ⟨_ :: _ :: _ :: _ :: _ :: _ :: [_], rfl⟩⟩

theorem receivePayment_tableDone_witness :
    (∀ k, afterSecondTable.extOk k = true) ∧
    ∃ w', receivePayment oneTable 0 7 afterSecondTable = some w' ∧
      (opTrace afterSecondTable w').countP
        (isSemUp (Sem.tableDone (afterSecondTable.fSt.assignedTable 0))) = 1 ∧
      (opTrace afterSecondTable w').countP (isSemUp Sem.mutex) = 1 ∧
      occursBefore (isSemUp Sem.mutex)
        (isSemUp (Sem.tableDone (afterSecondTable.fSt.assignedTable 0)))
        (opTrace afterSecondTable w') = true ∧
      occursBefore (isSemUp (Sem.tableDone (afterSecondTable.fSt.assignedTable 0)))
        (isSemUp Sem.mutex) (opTrace afterSecondTable w') = false ∧
      ∃ pre, opTrace afterSecondTable w' =
        pre ++ [Event.semUp Sem.mutex,
          Event.semUp (Sem.tableDone (afterSecondTable.fSt.assignedTable 0))] :=
  ⟨fun _ => rfl, receivePayment_tableDone oneTable 0 7 afterSecondTable (fun _ => rfl)⟩

/-- C8, as stated, fails: group 0 asks for a table in `twoGroupsStart`, a
free table is found, and in the trace of the call no `semUp` on the mutex
comes before the `semUp` on `waitForTable[0]`. -/
theorem provide_signals_before_release :
    decideTableOrWait oneTable twoGroupsStart.fSt 0 ≠ -1 ∧
    provideTableOrWaitingRoom oneTable 0 twoGroupsStart = some afterFirstTable ∧
    occursBefore (isSemUp Sem.mutex) (isSemUp (Sem.waitForTable 0))
      (opTrace twoGroupsStart afterFirstTable) = false :=
  ⟨by decide, rfl, rfl⟩

/-- C8, amended: in a call `provideTableOrWaitingRoom (n)` that finds a free
table `t` and in which no primitive fails, the receptionist first stores `t`
into `assignedTable[n]`, then signals `waitForTable[n]` once, while it still
holds the mutex, and then releases the mutex: the trace ends with that
store, the `semUp` on `waitForTable[n]` and the `semUp` on the mutex. -/
theorem provide_signal_order (c : ProbConst) (n : Int) (w : World)
    (hok : ∀ k, w.extOk k = true) (ht : decideTableOrWait c w.fSt n ≠ -1) :
    ∃ w', provideTableOrWaitingRoom c n w = some w' ∧
      occursBefore (isAssign n (decideTableOrWait c w.fSt n))
        (isSemUp (Sem.waitForTable n)) (opTrace w w') = true ∧
      occursBefore (isSemUp (Sem.waitForTable n)) (isSemUp Sem.mutex)
        (opTrace w w') = true ∧
      occursBefore (isSemUp Sem.mutex) (isSemUp (Sem.waitForTable n))
        (opTrace w w') = false ∧
      (opTrace w w').countP (isSemUp (Sem.waitForTable n)) = 1 ∧
      (opTrace w w').countP (isSemUp Sem.mutex) = 1 ∧
      ∃ pre, opTrace w w' =
        pre ++ [Event.setAssignedTable n (decideTableOrWait c w.fSt n),
          Event.semUp (Sem.waitForTable n), Event.semUp Sem.mutex] := by
  refine ⟨_, provide_seat_run c n w hok ht, ?_⟩
  rw [opTrace_of_append w _ _ rfl]
  refine ⟨by simp [occursBefore, isSemUp, isAssign], by simp [occursBefore, isSemUp],
    by simp [occursBefore, isSemUp], by simp [isSemUp], by simp [isSemUp],
    ⟨_ :: _ :: [_], rfl⟩⟩

theorem provide_signal_order_witness :
    (∀ k, twoGroupsStart.extOk k = true) ∧
    decideTableOrWait oneTable twoGroupsStart.fSt 0 ≠ -1 ∧
    ∃ w', provideTableOrWaitingRoom oneTable 0 twoGroupsStart = some w' ∧
      occursBefore (isAssign 0 (decideTableOrWait oneTable twoGroupsStart.fSt 0))
        (isSemUp (Sem.waitForTable 0)) (opTrace twoGroupsStart w') = true ∧
      occursBefore (isSemUp (Sem.waitForTable 0)) (isSemUp Sem.mutex)
        (opTrace twoGroupsStart w') = true ∧
      occursBefore (isSemUp Sem.mutex) (isSemUp (Sem.waitForTable 0))
        (opTrace twoGroupsStart w') = false ∧
      (opTrace twoGroupsStart w').countP (isSemUp (Sem.waitForTable 0)) = 1 ∧
      (opTrace twoGroupsStart w').countP (isSemUp Sem.mutex) = 1 ∧
      ∃ pre, opTrace twoGroupsStart w' =
        pre ++ [Event.setAssignedTable 0 (decideTableOrWait oneTable twoGroupsStart.fSt 0),
          Event.semUp (Sem.waitForTable 0), Event.semUp Sem.mutex] :=
  ⟨fun _ => rfl, by decide,
    provide_signal_order oneTable 0 twoGroupsStart (fun _ => rfl) (by decide)⟩

/-- C9: when no primitive fails, `waitForGroup ()` returns the contents of
the request slot, and its trace is: `semDown` mutex, store of the status,
`saveState`, `semUp` mutex, the one `semDown` on `receptionistReq`,
`semDown` mutex, the read of the slot (of the value returned), `semUp`
mutex, and last the one `semUp` on `receptionistRequestPossible`. So the
read follows the `semDown` on `receptionistReq`, is made with the mutex
held, and precedes the `semUp` on `receptionistRequestPossible`, which
follows every release of the mutex. -/
theorem waitForGroup_mailbox_order (c : ProbConst) (w : World)
    (hok : ∀ k, w.extOk k = true) :
    ∃ ret w', waitForGroup c w = some (ret, w') ∧
      ret = w.fSt.receptionistRequest ∧
      opTrace w w' =
        [Event.semDown Sem.mutex, Event.setReceptionistStat c.WAIT_REQUEST,
         Event.saveState (withStat w.fSt c.WAIT_REQUEST),
         Event.semUp Sem.mutex,
         Event.semDown Sem.receptionistReq,
         Event.semDown Sem.mutex,
         Event.readRequest ret,
         Event.semUp Sem.mutex,
         Event.semUp Sem.receptionistRequestPossible] ∧
      (opTrace w w').countP (isSemDown Sem.receptionistReq) = 1 ∧
      (opTrace w w').countP isReadRequest = 1 ∧
      occursBefore (isSemDown Sem.receptionistReq) isReadRequest (opTrace w w') = true ∧
      occursBefore isReadRequest (isSemDown Sem.receptionistReq) (opTrace w w') = false ∧
      underMutex isReadRequest false (opTrace w w') = true ∧
      (opTrace w w').countP (isSemUp Sem.receptionistRequestPossible) = 1 ∧
      occursBefore isReadRequest (isSemUp Sem.receptionistRequestPossible)
        (opTrace w w') = true ∧
      occursBefore (isSemUp Sem.receptionistRequestPossible) isReadRequest
        (opTrace w w') = false ∧
      occursBefore (isSemUp Sem.receptionistRequestPossible) (isSemUp Sem.mutex)
        (opTrace w w') = false := by
  refine ⟨_, _, waitForGroup_run c w hok, rfl, ?_⟩
  rw [opTrace_of_append w _ _ rfl]
  refine ⟨rfl, by simp [isSemDown], by simp [isReadRequest],
    by simp [occursBefore, isSemDown, isReadRequest],
    by simp [occursBefore, isSemDown, isReadRequest],
    by simp [underMutex, isReadRequest],
    by simp [isSemUp],
    by simp [occursBefore, isSemUp, isReadRequest],
    by simp [occursBefore, isSemUp, isReadRequest],
    by simp [occursBefore, isSemUp]⟩

theorem waitForGroup_mailbox_order_witness :
    (∀ k, twoGroupsStart.extOk k = true) ∧
    ∃ ret w', waitForGroup oneTable twoGroupsStart = some (ret, w') ∧
      ret = twoGroupsStart.fSt.receptionistRequest ∧
      (opTrace twoGroupsStart w').countP (isSemDown Sem.receptionistReq) = 1 ∧
      (opTrace twoGroupsStart w').countP (isSemUp Sem.receptionistRequestPossible) = 1 := by
  refine ⟨fun _ => rfl, ?_⟩
  obtain ⟨ret, w', h, hret, _, h1, _, _, _, _, h2, _⟩ :=
    waitForGroup_mailbox_order oneTable twoGroupsStart (fun _ => rfl)
  exact ⟨ret, w', h, hret, h1, h2⟩

/-- C10, as stated, fails: in the table request of group 0 in
`twoGroupsStart` the stores into `assignedTable` are not followed by a
`saveState` before the mutex is released, and the last snapshot written has
`assignedTable[0] = -1` while the call leaves `assignedTable[0] = 0`. -/
theorem provide_last_snapshot_stale :
    provideTableOrWaitingRoom oneTable 0 twoGroupsStart = some afterFirstTable ∧
    writesSaved false (opTrace twoGroupsStart afterFirstTable) = false ∧
    ∃ snap, lastSnapshot (opTrace twoGroupsStart afterFirstTable) = some snap ∧
      snap.assignedTable 0 = -1 ∧ afterFirstTable.fSt.assignedTable 0 = 0 ∧
      snap ≠ afterFirstTable.fSt := by
  refine ⟨rfl, rfl, withStat twoGroupsStart.fSt oneTable.ASSIGNTABLE, rfl, rfl, rfl, ?_⟩
  intro e
  have h := congrArg (fun s : FULL_STAT => s.assignedTable 0) e
  exact absurd h (by decide)

/-- C10, amended: when no primitive fails, each receptionist operation
begins by taking the mutex, storing its `receptionistStat` and calling
`saveState`; this is its only `saveState`, made with the mutex held, and the
snapshot is the entry state with the new `receptionistStat`. In
`waitForGroup` that snapshot equals the shared state the operation leaves
and every store is saved before the mutex is released. In
`provideTableOrWaitingRoom` and `receivePayment` the stores into
`assignedTable` and `groupsWaiting` come after the snapshot and no
`saveState` follows them before the mutex is released. -/
theorem snapshot_discipline (c : ProbConst) (n r0 : Int) (w : World)
    (hok : ∀ k, w.extOk k = true) :
    (∃ ret w', waitForGroup c w = some (ret, w') ∧
      (∃ post, opTrace w w' =
        [Event.semDown Sem.mutex, Event.setReceptionistStat c.WAIT_REQUEST,
         Event.saveState (withStat w.fSt c.WAIT_REQUEST)] ++ post) ∧
      (opTrace w w').countP isSaveState = 1 ∧
      underMutex isSaveState false (opTrace w w') = true ∧
      lastSnapshot (opTrace w w') = some w'.fSt ∧
      writesSaved false (opTrace w w') = true) ∧
    (∃ w', provideTableOrWaitingRoom c n w = some w' ∧
      (∃ post, opTrace w w' =
        [Event.semDown Sem.mutex, Event.setReceptionistStat c.ASSIGNTABLE,
         Event.saveState (withStat w.fSt c.ASSIGNTABLE)] ++ post) ∧
      (opTrace w w').countP isSaveState = 1 ∧
      underMutex isSaveState false (opTrace w w') = true ∧
      lastSnapshot (opTrace w w') = some (withStat w.fSt c.ASSIGNTABLE) ∧
      writesSaved false (opTrace w w') = false) ∧
    (∃ w', receivePayment c n r0 w = some w' ∧
      (∃ post, opTrace w w' =
        [Event.semDown Sem.mutex, Event.setReceptionistStat c.RECVPAY,
         Event.saveState (withStat w.fSt c.RECVPAY)] ++ post) ∧
      (opTrace w w').countP isSaveState = 1 ∧
      underMutex isSaveState false (opTrace w w') = true ∧
      lastSnapshot (opTrace w w') = some (withStat w.fSt c.RECVPAY) ∧
      writesSaved false (opTrace w w') = false) := by
  refine ⟨?_, ?_, ?_⟩
  · refine ⟨_, _, waitForGroup_run c w hok, ?_⟩
    rw [opTrace_of_append w _ _ rfl]
    exact ⟨⟨_, rfl⟩, by simp [isSaveState], by simp [underMutex, isSaveState],
      by simp [lastSnapshot], by simp [writesSaved]⟩
  · by_cases ht : decideTableOrWait c w.fSt n = -1
    · refine ⟨_, provide_wait_run c n w hok ht, ?_⟩
      rw [opTrace_of_append w _ _ rfl]
      exact ⟨⟨_, rfl⟩, by simp [isSaveState], by simp [underMutex, isSaveState],
        by simp [lastSnapshot], by simp [writesSaved]⟩
    · refine ⟨_, provide_seat_run c n w hok ht, ?_⟩
      rw [opTrace_of_append w _ _ rfl]
      exact ⟨⟨_, rfl⟩, by simp [isSaveState], by simp [underMutex, isSaveState],
        by simp [lastSnapshot], by simp [writesSaved]⟩
  · by_cases hg : nextAfterPayment c n r0 w = -1
    · refine ⟨_, receive_none_run c n r0 w hok hg, ?_⟩
      rw [opTrace_of_append w _ _ rfl]
      exact ⟨⟨_, rfl⟩, by simp [isSaveState], by simp [underMutex, isSaveState],
        by simp [lastSnapshot], by simp [writesSaved]⟩
    · refine ⟨_, receive_seat_run c n r0 w hok hg, ?_⟩
      rw [opTrace_of_append w _ _ rfl]
      exact ⟨⟨_, rfl⟩, by simp [isSaveState], by simp [underMutex, isSaveState],
        by simp [lastSnapshot], by simp [writesSaved]⟩

theorem snapshot_discipline_witness :
    (∀ k, afterSecondTable.extOk k = true) ∧
    (∃ w', receivePayment oneTable 0 7 afterSecondTable = some w' ∧
      (opTrace afterSecondTable w').countP isSaveState = 1 ∧
      underMutex isSaveState false (opTrace afterSecondTable w') = true ∧
      lastSnapshot (opTrace afterSecondTable w') =
        some (withStat afterSecondTable.fSt oneTable.RECVPAY) ∧
      writesSaved false (opTrace afterSecondTable w') = false) := by
  refine ⟨fun _ => rfl, ?_⟩
  obtain ⟨_, _, w', h, _, h1, h2, h3, h4⟩ :=
    snapshot_discipline oneTable 0 7 afterSecondTable (fun _ => rfl)
  exact ⟨w', h, h1, h2, h3, h4⟩

/-! ## The operations: state left by a call -/

theorem provide_result (c : ProbConst) (n : Int) (w w' : World)
    (h : provideTableOrWaitingRoom c n w = some w') :
    w'.fSt.nGroups = w.fSt.nGroups ∧ w'.extOk = w.extOk ∧
    w'.fSt.assignedTable = store w.fSt.assignedTable n (decideTableOrWait c w.fSt n) ∧
    w'.groupRecord =
      store w.groupRecord n (if decideTableOrWait c w.fSt n = -1 then WAIT else ATTABLE) ∧
    w'.fSt.groupsWaiting =
      (if decideTableOrWait c w.fSt n = -1 then w.fSt.groupsWaiting + 1
       else w.fSt.groupsWaiting) := by
  by_cases ht : decideTableOrWait c w.fSt n = -1
  · rw [provide_wait_inv c n w w' h ht]
    simp [ht, withStat]
  · rw [provide_seat_inv c n w w' h ht]
    simp [ht, withStat]

theorem receive_result (c : ProbConst) (n r0 : Int) (w w' : World)
    (h : receivePayment c n r0 w = some w') :
    w'.fSt.nGroups = w.fSt.nGroups ∧ w'.extOk = w.extOk ∧
    w'.fSt.assignedTable =
      (if nextAfterPayment c n r0 w = -1 then store w.fSt.assignedTable n (-1)
       else store (store w.fSt.assignedTable n (-1)) (nextAfterPayment c n r0 w)
              (w.fSt.assignedTable n)) ∧
    w'.groupRecord =
      (if nextAfterPayment c n r0 w = -1 then store w.groupRecord n DONE
       else store (store w.groupRecord n DONE) (nextAfterPayment c n r0 w) ATTABLE) ∧
    w'.fSt.groupsWaiting =
      (if nextAfterPayment c n r0 w = -1 then w.fSt.groupsWaiting
       else w.fSt.groupsWaiting - 1) := by
  by_cases hg : nextAfterPayment c n r0 w = -1
  · rw [receive_none_inv c n r0 w w' h hg]
    simp [hg, withStat, paidState]
  · rw [receive_seat_inv c n r0 w w' h hg]
    simp [hg, withStat, paidState]

theorem provide_returns (c : ProbConst) (n : Int) (w : World)
    (hok : ∀ k, w.extOk k = true) : ∃ w', provideTableOrWaitingRoom c n w = some w' := by
  by_cases ht : decideTableOrWait c w.fSt n = -1
  · exact ⟨_, provide_wait_run c n w hok ht⟩
  · exact ⟨_, provide_seat_run c n w hok ht⟩

theorem receive_returns (c : ProbConst) (n r0 : Int) (w : World)
    (hok : ∀ k, w.extOk k = true) : ∃ w', receivePayment c n r0 w = some w' := by
  by_cases hg : nextAfterPayment c n r0 w = -1
  · exact ⟨_, receive_none_run c n r0 w hok hg⟩
  · exact ⟨_, receive_seat_run c n r0 w hok hg⟩

/-- With a single table the answer of `decideTableOrWait` is table 0 when no
group holds it and `-1` otherwise. -/
theorem decideTableOrWait_one_table (c : ProbConst) (fSt : FULL_STAT) (n : Int)
    (hT : c.NUMTABLES = 1) :
    (tableHeld fSt 0 → decideTableOrWait c fSt n = -1) ∧
    (¬ tableHeld fSt 0 → decideTableOrWait c fSt n = 0) := by
  rcases decideTableOrWait_cases c fSt n with ⟨e, hall⟩ | ⟨t, e, ht, hfree, _⟩
  · refine ⟨fun _ => e, fun hn => ?_⟩
    exact absurd (hall 0 (by omega)) hn
  · have ht0 : t = 0 := by omega
    subst ht0
    refine ⟨fun hh => absurd hh hfree, fun _ => ?_⟩
    rw [e]; rfl

/-- C11: one table, two groups, starting with no table assigned, nobody
waiting and every ledger entry `TOARRIVE`, no primitive failing. Handling
`TABLEREQ(0)`, `TABLEREQ(1)`, `BILLREQ(0)`, `BILLREQ(1)` in that order leaves
`assignedTable = [0, -1]` with `groupsWaiting = 0`; then `[0, -1]` with
`groupsWaiting = 1` and `groupRecord[1] = WAIT`; then `[-1, 0]` with
`groupsWaiting = 0`; then `[-1, -1]` with `groupsWaiting = 0`. -/
theorem two_groups_one_table (c : ProbConst) (w : World) (r0 r1 : Int)
    (hT : c.NUMTABLES = 1) (hN : w.fSt.nGroups = 2) (hinit : InitialState w)
    (hok : ∀ k, w.extOk k = true) :
    ∃ w1 w2 w3 w4,
      provideTableOrWaitingRoom c 0 w = some w1 ∧
      provideTableOrWaitingRoom c 1 w1 = some w2 ∧
      receivePayment c 0 r0 w2 = some w3 ∧
      receivePayment c 1 r1 w3 = some w4 ∧
      (w1.fSt.assignedTable 0 = 0 ∧ w1.fSt.assignedTable 1 = -1 ∧
        w1.fSt.groupsWaiting = 0) ∧
      (w2.fSt.assignedTable 0 = 0 ∧ w2.fSt.assignedTable 1 = -1 ∧
        w2.fSt.groupsWaiting = 1 ∧ w2.groupRecord 1 = WAIT) ∧
      (w3.fSt.assignedTable 0 = -1 ∧ w3.fSt.assignedTable 1 = 0 ∧
        w3.fSt.groupsWaiting = 0) ∧
      (w4.fSt.assignedTable 0 = -1 ∧ w4.fSt.assignedTable 1 = -1 ∧
        w4.fSt.groupsWaiting = 0) := by
  obtain ⟨ha, hgw, _⟩ := hinit
  rw [hN] at ha
  have ha0 : w.fSt.assignedTable 0 = -1 := ha 0 (by decide) (by decide)
  have ha1 : w.fSt.assignedTable 1 = -1 := ha 1 (by decide) (by decide)
  -- first table request: table 0 is free
  have ht1 : decideTableOrWait c w.fSt 0 = 0 := by
    refine (decideTableOrWait_one_table c w.fSt 0 hT).2 ?_
    rintro ⟨g, hg0, hg1, hg⟩
    rw [hN] at hg1
    rw [ha g hg0 hg1] at hg
    exact absurd hg (by decide)
  obtain ⟨w1, h1⟩ := provide_returns c 0 w hok
  obtain ⟨hN1, hok1, hA1, _, hG1⟩ := provide_result c 0 w w1 h1
  rw [ht1] at hA1 hG1
  have a10 : w1.fSt.assignedTable 0 = 0 := by rw [hA1]; simp [store]
  have a11 : w1.fSt.assignedTable 1 = -1 := by rw [hA1]; simp [store, ha1]
  have g1 : w1.fSt.groupsWaiting = 0 := by rw [hG1]; simpa using hgw
  -- second table request: table 0 is held by group 0
  have ht2 : decideTableOrWait c w1.fSt 1 = -1 := by
    refine (decideTableOrWait_one_table c w1.fSt 1 hT).1 ⟨0, by decide, ?_, a10⟩
    rw [hN1, hN]; decide
  obtain ⟨w2, h2⟩ := provide_returns c 1 w1 (by rw [hok1]; exact hok)
  obtain ⟨hN2, hok2, hA2, hR2, hG2⟩ := provide_result c 1 w1 w2 h2
  rw [ht2] at hA2 hR2 hG2
  have a20 : w2.fSt.assignedTable 0 = 0 := by rw [hA2]; simp [store, a10]
  have a21 : w2.fSt.assignedTable 1 = -1 := by rw [hA2]; simp [store]
  have g2 : w2.fSt.groupsWaiting = 1 := by rw [hG2]; simp [g1]
  have r21 : w2.groupRecord 1 = WAIT := by rw [hR2]; simp [store]
  -- first bill request: group 1 is the lowest waiting group
  have hn3 : nextAfterPayment c 0 r0 w2 = 1 := by
    rcases decideNextGroup_cases (paidState c 0 w2.fSt) (store w2.groupRecord 0 DONE) r0 with
      ⟨hz, _⟩ | ⟨_, hl0, hl1, hlw, _⟩ | ⟨_, _, hall⟩
    · have : w2.fSt.groupsWaiting = 0 := hz
      rw [g2] at this
      exact absurd this (by decide)
    · have hl1' : nextAfterPayment c 0 r0 w2 < ((2 : Nat) : Int) := by
        have : (paidState c 0 w2.fSt).nGroups = 2 := by
          show w2.fSt.nGroups = 2
          rw [hN2, hN1, hN]
        rw [← this]; exact hl1
      have hne : nextAfterPayment c 0 r0 w2 ≠ 0 := by
        intro e
        have hlw' : store w2.groupRecord 0 DONE (nextAfterPayment c 0 r0 w2) = WAIT := hlw
        rw [e] at hlw'
        simp [store] at hlw'
        exact absurd hlw' (by decide)
      have hl0' : 0 ≤ nextAfterPayment c 0 r0 w2 := hl0
      push_cast at hl1'
      omega
    · exfalso
      refine hall 1 (by decide) ?_ ?_
      · show (1 : Int) < (w2.fSt.nGroups : Int)
        rw [hN2, hN1, hN]; decide
      · simp [store, r21]
  obtain ⟨w3, h3⟩ := receive_returns c 0 r0 w2 (by rw [hok2, hok1]; exact hok)
  obtain ⟨_, hok3, hA3, _, hG3⟩ := receive_result c 0 r0 w2 w3 h3
  rw [hn3] at hA3 hG3
  have a30 : w3.fSt.assignedTable 0 = -1 := by rw [hA3]; simp [store]
  have a31 : w3.fSt.assignedTable 1 = 0 := by rw [hA3]; simp [store, a20]
  have g3 : w3.fSt.groupsWaiting = 0 := by rw [hG3]; simp [g2]
  -- second bill request: nobody waits
  have hn4 : nextAfterPayment c 1 r1 w3 = -1 := by
    have : (paidState c 1 w3.fSt).groupsWaiting = 0 := g3
    simp [nextAfterPayment, decideNextGroup, this]
  obtain ⟨w4, h4⟩ := receive_returns c 1 r1 w3 (by rw [hok3, hok2, hok1]; exact hok)
  obtain ⟨_, _, hA4, _, hG4⟩ := receive_result c 1 r1 w3 w4 h4
  rw [hn4] at hA4 hG4
  have a40 : w4.fSt.assignedTable 0 = -1 := by rw [hA4]; simp [store, a30]
  have a41 : w4.fSt.assignedTable 1 = -1 := by rw [hA4]; simp [store]
  have g4 : w4.fSt.groupsWaiting = 0 := by rw [hG4]; simp [g3]
  exact ⟨w1, w2, w3, w4, h1, h2, h3, h4, ⟨a10, a11, g1⟩, ⟨a20, a21, g2, r21⟩,
    ⟨a30, a31, g3⟩, ⟨a40, a41, g4⟩⟩

theorem two_groups_one_table_witness :
    oneTable.NUMTABLES = 1 ∧ twoGroupsStart.fSt.nGroups = 2 ∧
    InitialState twoGroupsStart ∧ (∀ k, twoGroupsStart.extOk k = true) ∧
    ∃ w1 w2 w3 w4,
      provideTableOrWaitingRoom oneTable 0 twoGroupsStart = some w1 ∧
      provideTableOrWaitingRoom oneTable 1 w1 = some w2 ∧
      receivePayment oneTable 0 7 w2 = some w3 ∧
      receivePayment oneTable 1 7 w3 = some w4 ∧
      (w1.fSt.assignedTable 0 = 0 ∧ w1.fSt.assignedTable 1 = -1 ∧
        w1.fSt.groupsWaiting = 0) ∧
      (w2.fSt.assignedTable 0 = 0 ∧ w2.fSt.assignedTable 1 = -1 ∧
        w2.fSt.groupsWaiting = 1 ∧ w2.groupRecord 1 = WAIT) ∧
      (w3.fSt.assignedTable 0 = -1 ∧ w3.fSt.assignedTable 1 = 0 ∧
        w3.fSt.groupsWaiting = 0) ∧
      (w4.fSt.assignedTable 0 = -1 ∧ w4.fSt.assignedTable 1 = -1 ∧
        w4.fSt.groupsWaiting = 0) :=
  ⟨rfl, rfl, ⟨fun _ _ _ => rfl, rfl, fun _ _ _ => rfl⟩, fun _ => rfl,
    two_groups_one_table oneTable twoGroupsStart 7 7 rfl rfl
      ⟨fun _ _ _ => rfl, rfl, fun _ _ _ => rfl⟩ (fun _ => rfl)⟩

/-! ## Further facts kept by every step of a valid run -/

/-- In a consistent state with a non-zero waiting count the value
`decideNextGroup` returns inside `receivePayment`, for a seated group, is the
lowest waiting group. -/
theorem next_of_waiting (c : ProbConst) (n r0 : Int) (w : World)
    (hc : Consistent w) (hr : w.groupRecord n = ATTABLE) (hgw : w.fSt.groupsWaiting ≠ 0) :
    lowestWaiting w.fSt (store w.groupRecord n DONE) (nextAfterPayment c n r0 w) := by
  refine next_is_waiting c n r0 w hc hr ?_
  intro e
  rcases decideNextGroup_cases (paidState c n w.fSt) (store w.groupRecord n DONE) r0 with
    ⟨hz, _⟩ | ⟨_, hl0, _⟩ | ⟨_, _, hall⟩
  · exact hgw hz
  · have h0 : 0 ≤ nextAfterPayment c n r0 w := hl0
    rw [e] at h0
    exact absurd h0 (by decide)
  · have hz := waitingCount_eq_zero (store w.groupRecord n DONE) w.fSt.nGroups hall
    rw [waitingCount_store_keep w.groupRecord n DONE w.fSt.nGroups
      (by rw [hr]; decide) (by decide)] at hz
    have hb : w.fSt.groupsWaiting = (waitingCount w.groupRecord w.fSt.nGroups : Int) := hc.2.1
    rw [hz] at hb
    exact hgw hb

theorem next_none_of_idle (c : ProbConst) (n r0 : Int) (w : World)
    (hgw : w.fSt.groupsWaiting = 0) : nextAfterPayment c n r0 w = -1 := by
  have : (paidState c n w.fSt).groupsWaiting = 0 := hgw
  simp [nextAfterPayment, decideNextGroup, this]

theorem provide_tablesInRange (c : ProbConst) (n : Int) (w w' : World)
    (hi : TablesInRange c w) (h : provideTableOrWaitingRoom c n w = some w') :
    TablesInRange c w' := by
  obtain ⟨hN, _, hA, _, _⟩ := provide_result c n w w' h
  intro g hg0 hgN hne
  rw [hN] at hgN
  rw [hA] at hne ⊢
  by_cases hgn : g = n
  · subst hgn
    simp only [store, if_true] at hne ⊢
    rcases decideTableOrWait_cases c w.fSt g with ⟨e, _⟩ | ⟨t, e, ht, _, _⟩
    · exact absurd e hne
    · rw [e]
      exact ⟨Int.natCast_nonneg _, by exact_mod_cast ht⟩
  · simp only [store, if_neg hgn] at hne ⊢
    exact hi g hg0 hgN hne

theorem receive_tablesInRange (c : ProbConst) (n r0 : Int) (w w' : World)
    (hi : TablesInRange c w) (h0 : 0 ≤ n) (hnN : n < w.fSt.nGroups)
    (h : receivePayment c n r0 w = some w') : TablesInRange c w' := by
  obtain ⟨hN, _, hA, _, _⟩ := receive_result c n r0 w w' h
  intro g hg0 hgN hne
  rw [hN] at hgN
  rw [hA] at hne ⊢
  by_cases hx : nextAfterPayment c n r0 w = -1
  · rw [if_pos hx] at hne ⊢
    by_cases hgn : g = n
    · subst hgn
      simp only [store, if_true] at hne
      exact absurd rfl hne
    · simp only [store, if_neg hgn] at hne ⊢
      exact hi g hg0 hgN hne
  · rw [if_neg hx] at hne ⊢
    by_cases hgx : g = nextAfterPayment c n r0 w
    · rw [← hgx] at hne ⊢
      simp only [store, if_true] at hne ⊢
      exact hi n h0 hnN hne
    · by_cases hgn : g = n
      · subst hgn
        simp only [store, if_neg hgx, if_true] at hne
        exact absurd rfl hne
      · simp only [store, if_neg hgx, if_neg hgn] at hne ⊢
        exact hi g hg0 hgN hne

theorem reachable_tablesInRange (c : ProbConst) (w : World) (h : Reachable c w) :
    TablesInRange c w := by
  induction h with
  | init w hi =>
    intro g hg0 hgN hne
    exact absurd (hi.1 g hg0 hgN) hne
  | await w w' req _ hs ih =>
    rw [(waitForGroup_inv c w w' req hs).2]
    exact ih
  | tableReq w w' n _ _ _ _ hs ih => exact provide_tablesInRange c n w w' ih hs
  | billReq w w' n r0 _ h0 hN _ hs ih => exact receive_tablesInRange c n r0 w w' ih h0 hN hs

theorem all_held_gives_wait (c : ProbConst) (fSt : FULL_STAT) (n : Int)
    (hall : ∀ t : Nat, t < c.NUMTABLES → tableHeld fSt t) :
    decideTableOrWait c fSt n = -1 := by
  rcases decideTableOrWait_cases c fSt n with ⟨e, _⟩ | ⟨t, _, ht, hfree, _⟩
  · exact e
  · exact absurd (hall t ht) hfree

theorem wait_gives_all_held (c : ProbConst) (fSt : FULL_STAT) (n : Int)
    (h : decideTableOrWait c fSt n = -1) :
    ∀ t : Nat, t < c.NUMTABLES → tableHeld fSt t := by
  rcases decideTableOrWait_cases c fSt n with ⟨_, hall⟩ | ⟨t, e, _, _, _⟩
  · exact hall
  · rw [e] at h
    have : (0 : Int) ≤ (t : Int) := Int.natCast_nonneg _
    omega

theorem provide_noIdleTable (c : ProbConst) (n : Int) (w w' : World)
    (hc : Consistent w) (hi : NoIdleTable c w) (h0 : 0 ≤ n) (hnN : n < w.fSt.nGroups)
    (hr : w.groupRecord n = TOARRIVE)
    (h : provideTableOrWaitingRoom c n w = some w') : NoIdleTable c w' := by
  obtain ⟨hN, _, hA, _, hG⟩ := provide_result c n w w' h
  have han : w.fSt.assignedTable n = -1 := by
    by_contra hne
    have := (hc.1 n h0 hnN).2 hne
    rw [hr] at this
    exact absurd this (by decide)
  intro hgw t ht
  by_cases hw : decideTableOrWait c w.fSt n = -1
  · obtain ⟨g, hg0, hgN, hg⟩ := wait_gives_all_held c w.fSt n hw t ht
    refine ⟨g, hg0, by rw [hN]; exact hgN, ?_⟩
    rw [hA, hw]
    by_cases hgn : g = n
    · subst hgn
      rw [han] at hg
      have : (0 : Int) ≤ (t : Int) := Int.natCast_nonneg _
      omega
    · simp only [store, if_neg hgn]
      exact hg
  · exfalso
    rw [if_neg hw] at hG
    rw [hG] at hgw
    exact hw (all_held_gives_wait c w.fSt n (hi hgw))

theorem receive_noIdleTable (c : ProbConst) (n r0 : Int) (w w' : World)
    (hc : Consistent w) (hi : NoIdleTable c w) (hr : w.groupRecord n = ATTABLE)
    (h : receivePayment c n r0 w = some w') : NoIdleTable c w' := by
  obtain ⟨hN, _, hA, _, hG⟩ := receive_result c n r0 w w' h
  intro hgw t ht
  by_cases hz : w.fSt.groupsWaiting = 0
  · exfalso
    rw [if_pos (next_none_of_idle c n r0 w hz), hz] at hG
    exact hgw hG
  · obtain ⟨hx0, hxN, hxw, _⟩ := next_of_waiting c n r0 w hc hr hz
    have hx : nextAfterPayment c n r0 w ≠ -1 := by
      intro e
      rw [e] at hx0
      exact absurd hx0 (by decide)
    have hxn : nextAfterPayment c n r0 w ≠ n := by
      intro e
      rw [e] at hxw
      simp only [store, if_true] at hxw
      exact absurd hxw (by decide)
    have hrx : w.groupRecord (nextAfterPayment c n r0 w) = WAIT := by
      simp only [store, if_neg hxn] at hxw
      exact hxw
    have hax : w.fSt.assignedTable (nextAfterPayment c n r0 w) = -1 := by
      by_contra hne
      have := (hc.1 _ hx0 hxN).2 hne
      rw [hrx] at this
      exact absurd this (by decide)
    obtain ⟨k, hk0, hkN, hk⟩ := hi hz t ht
    rw [if_neg hx] at hA
    by_cases hkn : k = n
    · refine ⟨nextAfterPayment c n r0 w, hx0, by rw [hN]; exact hxN, ?_⟩
      rw [hA]
      simp only [store, if_true]
      rw [← hkn]; exact hk
    · have hkx : k ≠ nextAfterPayment c n r0 w := by
        intro e
        rw [e, hax] at hk
        have : (0 : Int) ≤ (t : Int) := Int.natCast_nonneg _
        omega
      refine ⟨k, hk0, by rw [hN]; exact hkN, ?_⟩
      rw [hA]
      simp only [store, if_neg hkx, if_neg hkn]
      exact hk

theorem reachable_noIdleTable (c : ProbConst) (w : World) (h : Reachable c w) :
    NoIdleTable c w := by
  induction h with
  | init w hi =>
    intro hne
    exact absurd hi.2.1 hne
  | await w w' req _ hs ih =>
    rw [(waitForGroup_inv c w w' req hs).2]
    exact ih
  | tableReq w w' n hw h0 hN hr hs ih =>
    exact provide_noIdleTable c n w w' (reachable_consistent c w hw) ih h0 hN hr hs
  | billReq w w' n r0 hw _ _ hr hs ih =>
    exact receive_noIdleTable c n r0 w w' (reachable_consistent c w hw) ih hr hs

/-- C16: in every state reachable by a valid run, if `groupsWaiting > 0`
then every table `0 .. NUMTABLES-1` is held by some group below `nGroups`,
and `decideTableOrWait` returns `-1` for every argument. -/
theorem no_group_waits_while_table_free (c : ProbConst) (w : World) (h : Reachable c w)
    (hgw : 0 < w.fSt.groupsWaiting) :
    (∀ t : Nat, t < c.NUMTABLES → tableHeld w.fSt t) ∧
    ∀ n : Int, decideTableOrWait c w.fSt n = -1 := by
  have hall := reachable_noIdleTable c w h (by omega)
  exact ⟨hall, fun n => all_held_gives_wait c w.fSt n hall⟩

theorem no_group_waits_while_table_free_witness :
    Reachable oneTable afterSecondTable ∧ 0 < afterSecondTable.fSt.groupsWaiting ∧
    (∀ t : Nat, t < oneTable.NUMTABLES → tableHeld afterSecondTable.fSt t) ∧
    ∀ n : Int, decideTableOrWait oneTable afterSecondTable.fSt n = -1 :=
  ⟨reachable_afterSecondTable, by decide,
    no_group_waits_while_table_free oneTable afterSecondTable reachable_afterSecondTable
      (by decide)⟩

/-- C17: in every state reachable by a valid run, when `receivePayment (n)`
for a seated group `n` calls `decideNextGroup` with `groupsWaiting != 0`,
some group below `nGroups` is marked `WAIT`; the value returned is the lowest
such group, an index in `0 .. nGroups-1`, whatever the uninitialised local
held. -/
theorem uninitialised_return_unreachable (c : ProbConst) (w : World) (n : Int)
    (h : Reachable c w) (hr : w.groupRecord n = ATTABLE)
    (hgw : w.fSt.groupsWaiting ≠ 0) :
    (∃ g : Int, 0 ≤ g ∧ g < w.fSt.nGroups ∧ store w.groupRecord n DONE g = WAIT) ∧
    ∀ r0 : Int,
      lowestWaiting (paidState c n w.fSt) (store w.groupRecord n DONE)
        (decideNextGroup (paidState c n w.fSt) (store w.groupRecord n DONE) r0) ∧
      0 ≤ decideNextGroup (paidState c n w.fSt) (store w.groupRecord n DONE) r0 ∧
      decideNextGroup (paidState c n w.fSt) (store w.groupRecord n DONE) r0
        < w.fSt.nGroups ∧
      decideNextGroup (paidState c n w.fSt) (store w.groupRecord n DONE) r0
        = decideNextGroup (paidState c n w.fSt) (store w.groupRecord n DONE) 0 := by
  have hc := reachable_consistent c w h
  have key : ∀ r0 : Int, lowestWaiting w.fSt (store w.groupRecord n DONE)
      (nextAfterPayment c n r0 w) := fun r0 => next_of_waiting c n r0 w hc hr hgw
  refine ⟨⟨_, (key 0).1, (key 0).2.1, (key 0).2.2.1⟩, fun r0 => ⟨key r0, (key r0).1,
    (key r0).2.1, ?_⟩⟩
  obtain ⟨a0, a1, a2, a3⟩ := key r0
  obtain ⟨b0, b1, b2, b3⟩ := key 0
  show nextAfterPayment c n r0 w = nextAfterPayment c n 0 w
  rcases lt_trichotomy (nextAfterPayment c n r0 w) (nextAfterPayment c n 0 w) with hlt | he | hgt
  · exact absurd a2 (b3 _ a0 hlt)
  · exact he
  · exact absurd b2 (a3 _ b0 hgt)

theorem uninitialised_return_unreachable_witness :
    Reachable oneTable afterSecondTable ∧
    afterSecondTable.groupRecord 0 = ATTABLE ∧
    afterSecondTable.fSt.groupsWaiting ≠ 0 ∧
    (lowestWaiting (paidState oneTable 0 afterSecondTable.fSt)
        (store afterSecondTable.groupRecord 0 DONE)
        (decideNextGroup (paidState oneTable 0 afterSecondTable.fSt)
          (store afterSecondTable.groupRecord 0 DONE) 7) ∧
      0 ≤ decideNextGroup (paidState oneTable 0 afterSecondTable.fSt)
          (store afterSecondTable.groupRecord 0 DONE) 7 ∧
      decideNextGroup (paidState oneTable 0 afterSecondTable.fSt)
          (store afterSecondTable.groupRecord 0 DONE) 7
        < afterSecondTable.fSt.nGroups ∧
      decideNextGroup (paidState oneTable 0 afterSecondTable.fSt)
          (store afterSecondTable.groupRecord 0 DONE) 7
        = decideNextGroup (paidState oneTable 0 afterSecondTable.fSt)
          (store afterSecondTable.groupRecord 0 DONE) 0) :=
  ⟨reachable_afterSecondTable, rfl, by decide,
    (uninitialised_return_unreachable oneTable afterSecondTable 0
      reachable_afterSecondTable rfl (by decide)).2 7⟩

/-- C18: in every state reachable by a valid run, for every group `g` below
`nGroups`, `groupRecord[g] = ATTABLE` exactly when `assignedTable[g] != -1`,
and then `0 <= assignedTable[g] < NUMTABLES`. Hence in a call
`receivePayment (n)` for a seated group the index of the `tableDone`
semaphore signalled at the end of the call lies in `0 .. NUMTABLES-1`. -/
theorem ledger_agrees_with_tables (c : ProbConst) (w : World) (h : Reachable c w) :
    (∀ g : Int, 0 ≤ g → g < w.fSt.nGroups →
      (w.groupRecord g = ATTABLE ↔ w.fSt.assignedTable g ≠ -1) ∧
      (w.fSt.assignedTable g ≠ -1 →
        0 ≤ w.fSt.assignedTable g ∧ w.fSt.assignedTable g < c.NUMTABLES)) ∧
    (∀ (n r0 : Int) (w' : World), 0 ≤ n → n < w.fSt.nGroups →
      w.groupRecord n = ATTABLE → receivePayment c n r0 w = some w' →
      ∃ v : Int, 0 ≤ v ∧ v < c.NUMTABLES ∧ v = w.fSt.assignedTable n ∧
        (opTrace w w').getLast? = some (Event.semUp (Sem.tableDone v))) := by
  have hc := reachable_consistent c w h
  have hi := reachable_tablesInRange c w h
  refine ⟨fun g hg0 hgN => ⟨hc.1 g hg0 hgN, hi g hg0 hgN⟩, ?_⟩
  intro n r0 w' h0 hN hr hs
  have hne : w.fSt.assignedTable n ≠ -1 := (hc.1 n h0 hN).1 hr
  obtain ⟨hv0, hv1⟩ := hi n h0 hN hne
  refine ⟨_, hv0, hv1, rfl, ?_⟩
  by_cases hg : nextAfterPayment c n r0 w = -1
  · rw [opTrace_of_append w w' _ (by rw [receive_none_inv c n r0 w w' hs hg])]
    rfl
  · rw [opTrace_of_append w w' _ (by rw [receive_seat_inv c n r0 w w' hs hg])]
    rfl

theorem ledger_agrees_with_tables_witness :
    Reachable oneTable afterSecondTable ∧
    (afterSecondTable.groupRecord 0 = ATTABLE ↔
      afterSecondTable.fSt.assignedTable 0 ≠ -1) ∧
    (afterSecondTable.fSt.assignedTable 0 ≠ -1 →
      0 ≤ afterSecondTable.fSt.assignedTable 0 ∧
      afterSecondTable.fSt.assignedTable 0 < oneTable.NUMTABLES) :=
  ⟨reachable_afterSecondTable,
    (ledger_agrees_with_tables oneTable afterSecondTable reachable_afterSecondTable).1 0
      (by decide) (by decide)⟩

theorem reachable_lastGroupPaid : Reachable oneTable lastGroupPaid :=
  Reachable.billReq firstGroupWaits lastGroupPaid 2 7
    (Reachable.tableReq middleGroupWaits firstGroupWaits 0
      (Reachable.tableReq lastGroupSeated middleGroupWaits 1
        (Reachable.tableReq threeGroupsStart lastGroupSeated 2
          (Reachable.init threeGroupsStart ⟨fun _ _ _ => rfl, rfl, fun _ _ _ => rfl⟩)
          (by decide) (by decide) rfl rfl)
        (by decide) (by decide) rfl rfl)
      (by decide) (by decide) rfl rfl)
    (by decide) (by decide) rfl rfl

/-- The lowest waiting group of the ledger is still the lowest waiting group
once a group that does not wait has been marked `DONE`. -/
theorem lowestWaiting_after_done (fSt fSt' : FULL_STAT) (r : Int → Int) (n g : Int)
    (hN : fSt'.nGroups = fSt.nGroups) (hn : r n ≠ WAIT)
    (h : lowestWaiting fSt' (store r n DONE) g) : lowestWaiting fSt r g := by
  obtain ⟨h0, h1, h2, h3⟩ := h
  have hgn : g ≠ n := by
    intro e
    rw [e] at h2
    simp only [store, if_true] at h2
    exact absurd h2 (by decide)
  refine ⟨h0, by rw [← hN]; exact h1, ?_, ?_⟩
  · simp only [store, if_neg hgn] at h2
    exact h2
  · intro i hi0 hig
    by_cases hin : i = n
    · rw [hin]; exact hn
    · have := h3 i hi0 hig
      simp only [store, if_neg hin] at this
      exact this

/-- C15: waiting groups are served by ascending id, not by arrival order.
With three groups and one table, after `TABLEREQ(2)`, `TABLEREQ(1)`,
`TABLEREQ(0)`, `BILLREQ(2)` group 1, which waited first, still waits and
group 0, which began to wait later, holds the table. And in every state with
`groupsWaiting != 0` and some group marked `WAIT`, `receivePayment (n)` for a
group `n` that is not itself waiting, no primitive failing, gives the table
of `n` to the lowest waiting group, marks it `ATTABLE` and signals its
`waitForTable` semaphore. -/
theorem waiting_served_by_ascending_id :
    (Reachable oneTable lastGroupPaid ∧
      provideTableOrWaitingRoom oneTable 2 threeGroupsStart = some lastGroupSeated ∧
      provideTableOrWaitingRoom oneTable 1 lastGroupSeated = some middleGroupWaits ∧
      provideTableOrWaitingRoom oneTable 0 middleGroupWaits = some firstGroupWaits ∧
      receivePayment oneTable 2 7 firstGroupWaits = some lastGroupPaid ∧
      middleGroupWaits.groupRecord 1 = WAIT ∧ middleGroupWaits.groupRecord 0 = TOARRIVE ∧
      firstGroupWaits.groupRecord 1 = WAIT ∧ firstGroupWaits.groupRecord 0 = WAIT ∧
      lastGroupPaid.fSt.assignedTable 0 = 0 ∧ lastGroupPaid.groupRecord 0 = ATTABLE ∧
      lastGroupPaid.fSt.assignedTable 1 = -1 ∧ lastGroupPaid.groupRecord 1 = WAIT) ∧
    (∀ (c : ProbConst) (n r0 : Int) (w : World),
      (∀ k, w.extOk k = true) → w.fSt.groupsWaiting ≠ 0 → w.groupRecord n ≠ WAIT →
      (∃ g : Int, 0 ≤ g ∧ g < w.fSt.nGroups ∧ w.groupRecord g = WAIT) →
      ∃ w' g, receivePayment c n r0 w = some w' ∧
        lowestWaiting w.fSt w.groupRecord g ∧
        w'.fSt.assignedTable g = w.fSt.assignedTable n ∧
        w'.groupRecord g = ATTABLE ∧
        (opTrace w w').countP (isSemUp (Sem.waitForTable g)) = 1 ∧
        (opTrace w w').countP isTableReadySignal = 1) := by
  refine ⟨⟨reachable_lastGroupPaid, rfl, rfl, rfl, rfl, rfl, rfl, rfl, rfl, rfl, rfl, rfl,
    rfl⟩, ?_⟩
  intro c n r0 w hok hgw hn ⟨g, hg0, hgN, hgw'⟩
  have hgn : g ≠ n := fun e => hn (e ▸ hgw')
  have hlow : lowestWaiting (paidState c n w.fSt) (store w.groupRecord n DONE)
      (nextAfterPayment c n r0 w) := by
    rcases decideNextGroup_cases (paidState c n w.fSt) (store w.groupRecord n DONE) r0 with
      ⟨hz, _⟩ | ⟨_, hl⟩ | ⟨_, _, hall⟩
    · exact absurd hz hgw
    · exact hl
    · exfalso
      refine hall g hg0 hgN ?_
      simp only [store, if_neg hgn]
      exact hgw'
  have hx : nextAfterPayment c n r0 w ≠ -1 := by
    intro e
    have h0 := hlow.1
    rw [e] at h0
    exact absurd h0 (by decide)
  refine ⟨_, nextAfterPayment c n r0 w, receive_seat_run c n r0 w hok hx,
    lowestWaiting_after_done w.fSt _ w.groupRecord n _ rfl hn hlow, ?_, ?_, ?_, ?_⟩
  · simp [store]
  · simp [store]
  · rw [opTrace_of_append w _ _ rfl]
    simp [isSemUp]
  · rw [opTrace_of_append w _ _ rfl]
    simp [isTableReadySignal]

/-! ## Counting the requests of a run -/

theorem runFrom_reachable (c : ProbConst) (w0 w : World) (k : Nat)
    (h0 : Reachable c w0) (h : RunFrom c w0 k w) : Reachable c w := by
  induction h with
  | start => exact h0
  | await k w w' req _ hs ih => exact Reachable.await w w' req ih hs
  | tableReq k w w' n _ hn0 hnN hr hs ih => exact Reachable.tableReq w w' n ih hn0 hnN hr hs
  | billReq k w w' n r0 _ hn0 hnN hr hs ih =>
    exact Reachable.billReq w w' n r0 ih hn0 hnN hr hs

theorem runFrom_nGroups (c : ProbConst) (w0 w : World) (k : Nat)
    (h : RunFrom c w0 k w) : w.fSt.nGroups = w0.fSt.nGroups := by
  induction h with
  | start => rfl
  | await k w w' req _ hs ih =>
    rw [(waitForGroup_inv c w w' req hs).2]
    exact ih
  | tableReq k w w' n _ _ _ _ hs ih => rw [(provide_result c n w w' hs).1, ih]
  | billReq k w w' n r0 _ _ _ _ hs ih => rw [(receive_result c n r0 w w' hs).1, ih]

theorem requestsMade_store (r : Int → Int) (n v : Int) (k : Nat) :
    requestsMade (store r n v) k + (if 0 ≤ n ∧ n < k then requestsOf (r n) else 0)
      = requestsMade r k + (if 0 ≤ n ∧ n < k then requestsOf v else 0) := by
  induction k with
  | zero =>
    have h : ¬ (0 ≤ n ∧ n < ((0 : Nat) : Int)) := by
      intro ⟨h1, h2⟩; omega
    simp only [requestsMade, if_neg h]
  | succ k ih =>
    simp only [requestsMade]
    by_cases hnk : n = (k : Int)
    · subst hnk
      have e1 : store r (k : Int) v (k : Int) = v := by simp [store]
      rw [e1]
      have hlt : ¬ ((0 : Int) ≤ (k : Int) ∧ (k : Int) < (k : Int)) := by
        intro ⟨_, h2⟩; exact lt_irrefl _ h2
      have hs : (0 : Int) ≤ (k : Int) ∧ (k : Int) < ((k + 1 : Nat) : Int) := by
        refine ⟨Int.natCast_nonneg _, ?_⟩
        push_cast; omega
      rw [if_neg hlt, if_neg hlt] at ih
      rw [if_pos hs, if_pos hs]
      omega
    · have e1 : store r n v (k : Int) = r (k : Int) := by
        simp only [store]
        rw [if_neg (fun h => hnk h.symm)]
      rw [e1]
      have hiff : (0 ≤ n ∧ n < ((k + 1 : Nat) : Int)) ↔ (0 ≤ n ∧ n < (k : Int)) := by
        constructor
        · intro ⟨h1, h2⟩
          refine ⟨h1, ?_⟩
          push_cast at h2; omega
        · intro ⟨h1, h2⟩
          refine ⟨h1, ?_⟩
          push_cast; omega
      simp only [hiff]
      omega

theorem requestsMade_store_same (r : Int → Int) (n v : Int) (k : Nat)
    (h : requestsOf v = requestsOf (r n)) :
    requestsMade (store r n v) k = requestsMade r k := by
  have e := requestsMade_store r n v k
  rw [h] at e
  omega

theorem requestsMade_store_next (r : Int → Int) (n v : Int) (k : Nat)
    (h0 : 0 ≤ n) (hk : n < k) (h : requestsOf v = requestsOf (r n) + 1) :
    requestsMade (store r n v) k = requestsMade r k + 1 := by
  have e := requestsMade_store r n v k
  rw [if_pos ⟨h0, hk⟩, if_pos ⟨h0, hk⟩, h] at e
  omega

theorem requestsOf_le (v : Int) : requestsOf v ≤ 2 := by
  unfold requestsOf
  split
  · exact le_refl _
  · split <;> omega

theorem requestsOf_eq_two (v : Int) (h : requestsOf v = 2) : v = DONE := by
  unfold requestsOf at h
  split at h
  · assumption
  · split at h <;> omega

theorem requestsMade_le (r : Int → Int) (k : Nat) : requestsMade r k ≤ 2 * k := by
  induction k with
  | zero => exact le_refl _
  | succ k ih =>
    simp only [requestsMade]
    have := requestsOf_le (r k)
    omega

theorem requestsMade_full (r : Int → Int) (k : Nat) (h : requestsMade r k = 2 * k) :
    ∀ g : Int, 0 ≤ g → g < k → r g = DONE := by
  induction k with
  | zero => intro g h0 h1; omega
  | succ k ih =>
    simp only [requestsMade] at h
    have h1 := requestsOf_le (r k)
    have h2 := requestsMade_le r k
    intro g hg0 hgk
    by_cases hgk' : g = (k : Int)
    · rw [hgk']
      exact requestsOf_eq_two _ (by omega)
    · exact ih (by omega) g hg0 (by push_cast at hgk; omega)

theorem requestsMade_initial (r : Int → Int) (k : Nat)
    (h : ∀ g : Int, 0 ≤ g → g < k → r g = TOARRIVE) : requestsMade r k = 0 := by
  induction k with
  | zero => rfl
  | succ k ih =>
    simp only [requestsMade]
    rw [ih (fun g h0 h1 => h g h0 (by push_cast; omega)),
      h k (Int.natCast_nonneg _) (by push_cast; omega)]
    rfl

theorem provide_requestsMade (c : ProbConst) (n : Int) (w w' : World)
    (h0 : 0 ≤ n) (hN : n < w.fSt.nGroups) (hr : w.groupRecord n = TOARRIVE)
    (h : provideTableOrWaitingRoom c n w = some w') :
    requestsMade w'.groupRecord w.fSt.nGroups
      = requestsMade w.groupRecord w.fSt.nGroups + 1 := by
  rw [(provide_result c n w w' h).2.2.2.1]
  refine requestsMade_store_next _ n _ _ h0 hN ?_
  rw [hr]
  split <;> rfl

theorem receive_requestsMade (c : ProbConst) (n r0 : Int) (w w' : World)
    (hc : Consistent w) (h0 : 0 ≤ n) (hN : n < w.fSt.nGroups)
    (hr : w.groupRecord n = ATTABLE) (h : receivePayment c n r0 w = some w') :
    requestsMade w'.groupRecord w.fSt.nGroups
      = requestsMade w.groupRecord w.fSt.nGroups + 1 := by
  have hpaid : requestsMade (store w.groupRecord n DONE) w.fSt.nGroups
      = requestsMade w.groupRecord w.fSt.nGroups + 1 :=
    requestsMade_store_next _ n _ _ h0 hN (by rw [hr]; rfl)
  rw [(receive_result c n r0 w w' h).2.2.2.1]
  by_cases hx : nextAfterPayment c n r0 w = -1
  · rw [if_pos hx]
    exact hpaid
  · rw [if_neg hx, ← hpaid]
    refine requestsMade_store_same _ _ _ _ ?_
    rw [(next_is_waiting c n r0 w hc hr hx).2.2.1]
    rfl

theorem runFrom_requestsMade (c : ProbConst) (w0 w : World) (k : Nat)
    (h0 : Reachable c w0) (h : RunFrom c w0 k w) :
    requestsMade w.groupRecord w0.fSt.nGroups
      = requestsMade w0.groupRecord w0.fSt.nGroups + k := by
  induction h with
  | start => rfl
  | await k w w' req _ hs ih =>
    rw [(waitForGroup_inv c w w' req hs).2]
    exact ih
  | tableReq k w w' n hrun hn0 hnN hr hs ih =>
    have e := provide_requestsMade c n w w' hn0 hnN hr hs
    rw [runFrom_nGroups c w0 w k hrun] at e
    rw [e, ih]; omega
  | billReq k w w' n r0 hrun hn0 hnN hr hs ih =>
    have e := receive_requestsMade c n r0 w w'
      (reachable_consistent c w (runFrom_reachable c w0 w k h0 hrun)) hn0 hnN hr hs
    rw [runFrom_nGroups c w0 w k hrun] at e
    rw [e, ih]; omega

theorem done_stable (c : ProbConst) (w1 w2 : World) (j : Nat) (g : Int)
    (h1 : Reachable c w1) (hrun : RunFrom c w1 j w2) (hg0 : 0 ≤ g)
    (hgN : g < w1.fSt.nGroups) (hd : w1.groupRecord g = DONE) :
    w2.groupRecord g = DONE ∧ w2.fSt.assignedTable g = -1 := by
  induction hrun with
  | start =>
    refine ⟨hd, ?_⟩
    by_contra hne
    have := ((reachable_consistent c w1 h1).1 g hg0 hgN).2 hne
    rw [hd] at this
    exact absurd this (by decide)
  | await k w w' req _ hs ih =>
    rw [(waitForGroup_inv c w w' req hs).2]
    exact ih
  | tableReq k w w' n _ _ _ hr hs ih =>
    obtain ⟨_, _, hA, hR, _⟩ := provide_result c n w w' hs
    have hgn : g ≠ n := by
      intro e
      rw [e, hr] at ih
      exact absurd ih.1 (by decide)
    rw [hA, hR]
    simp only [store, if_neg hgn]
    exact ih
  | billReq k w w' n r0 hrun _ _ hr hs ih =>
    obtain ⟨_, _, hA, hR, _⟩ := receive_result c n r0 w w' hs
    have hgn : g ≠ n := by
      intro e
      rw [e, hr] at ih
      exact absurd ih.1 (by decide)
    rw [hA, hR]
    by_cases hx : nextAfterPayment c n r0 w = -1
    · rw [if_pos hx, if_pos hx]
      simp only [store, if_neg hgn]
      exact ih
    · rw [if_neg hx, if_neg hx]
      have hw := (next_is_waiting c n r0 w
        (reachable_consistent c w (runFrom_reachable c w1 w k h1 hrun)) hr hx).2.2.1
      have hgx : g ≠ nextAfterPayment c n r0 w := by
        intro e
        rw [← e] at hw
        simp only [store, if_neg hgn] at hw
        rw [ih.1] at hw
        exact absurd hw (by decide)
      simp only [store, if_neg hgx, if_neg hgn]
      exact ih

theorem runFrom_afterSecondBill : RunFrom oneTable twoGroupsStart 4 afterSecondBill :=
  RunFrom.billReq 3 afterFirstBill afterSecondBill 1 7
    (RunFrom.billReq 2 afterSecondTable afterFirstBill 0 7
      (RunFrom.tableReq 1 afterFirstTable afterSecondTable 1
        (RunFrom.tableReq 0 twoGroupsStart afterFirstTable 0 RunFrom.start
          (by decide) (by decide) rfl rfl)
        (by decide) (by decide) rfl rfl)
      (by decide) (by decide) rfl rfl)
    (by decide) (by decide) rfl rfl

/-- C19: a valid run that starts in an initial state and handles
`2 * nGroups` requests ends with every ledger entry below `nGroups` equal to
`DONE`, every `assignedTable[g]` equal to `-1` and `groupsWaiting = 0`. And
at any point of a valid run, a group that has paid keeps the ledger entry
`DONE` and `assignedTable = -1` however the run goes on. -/
theorem complete_run_empties (c : ProbConst) (w0 w : World) (hinit : InitialState w0)
    (hrun : RunFrom c w0 (2 * w0.fSt.nGroups) w) :
    (∀ g : Int, 0 ≤ g → g < w.fSt.nGroups →
      w.groupRecord g = DONE ∧ w.fSt.assignedTable g = -1) ∧
    w.fSt.groupsWaiting = 0 ∧
    (∀ (k j : Nat) (w1 w2 : World) (g : Int),
      RunFrom c w0 k w1 → RunFrom c w1 j w2 → 0 ≤ g → g < w1.fSt.nGroups →
      w1.groupRecord g = DONE →
      w2.groupRecord g = DONE ∧ w2.fSt.assignedTable g = -1) := by
  have h0 : Reachable c w0 := Reachable.init w0 hinit
  have hreach := runFrom_reachable c w0 w _ h0 hrun
  have hc := reachable_consistent c w hreach
  have hN := runFrom_nGroups c w0 w _ hrun
  have hcount := runFrom_requestsMade c w0 w _ h0 hrun
  rw [requestsMade_initial w0.groupRecord w0.fSt.nGroups hinit.2.2, Nat.zero_add] at hcount
  have hdone : ∀ g : Int, 0 ≤ g → g < w.fSt.nGroups → w.groupRecord g = DONE := by
    intro g hg0 hgN
    rw [hN] at hgN
    exact requestsMade_full w.groupRecord w0.fSt.nGroups hcount g hg0 hgN
  refine ⟨?_, ?_, ?_⟩
  · intro g hg0 hgN
    refine ⟨hdone g hg0 hgN, ?_⟩
    by_contra hne
    have := (hc.1 g hg0 hgN).2 hne
    rw [hdone g hg0 hgN] at this
    exact absurd this (by decide)
  · have hb : w.fSt.groupsWaiting = (waitingCount w.groupRecord w.fSt.nGroups : Int) := hc.2.1
    rw [hb, waitingCount_eq_zero w.groupRecord w.fSt.nGroups
      (fun g hg0 hgN => by rw [hdone g hg0 hgN]; decide)]
    rfl
  · intro k j w1 w2 g hk hj hg0 hgN hd
    exact done_stable c w1 w2 j g (runFrom_reachable c w0 w1 k h0 hk) hj hg0 hgN hd

theorem complete_run_empties_witness :
    InitialState twoGroupsStart ∧
    RunFrom oneTable twoGroupsStart (2 * twoGroupsStart.fSt.nGroups) afterSecondBill ∧
    (∀ g : Int, 0 ≤ g → g < afterSecondBill.fSt.nGroups →
      afterSecondBill.groupRecord g = DONE ∧ afterSecondBill.fSt.assignedTable g = -1) ∧
    afterSecondBill.fSt.groupsWaiting = 0 :=
  ⟨⟨fun _ _ _ => rfl, rfl, fun _ _ _ => rfl⟩, runFrom_afterSecondBill,
    (complete_run_empties oneTable twoGroupsStart afterSecondBill
      ⟨fun _ _ _ => rfl, rfl, fun _ _ _ => rfl⟩ runFrom_afterSecondBill).1,
    (complete_run_empties oneTable twoGroupsStart afterSecondBill
      ⟨fun _ _ _ => rfl, rfl, fun _ _ _ => rfl⟩ runFrom_afterSecondBill).2.1⟩

/-! ## The log line: proofs -/

theorem padLeft_length (width : Nat) (s : List Char) (h : s.length ≤ width) :
    (padLeft width s).length = width := by
  simp only [padLeft, List.length_append, List.length_replicate]
  omega

theorem printfD_eq_rightAligned (width : Nat) (v : Int) :
    printfD width v = rightAligned width v := rfl

theorem printGroupStat_eq (fSt : FULL_STAT) (fuel : Nat) :
    ∀ g : Nat, fSt.nGroups - g ≤ fuel →
      printGroupStat fSt fuel g =
        (List.range' g (fSt.nGroups - g)).flatMap
          (fun g => rightAligned 4 (fSt.st.groupStat g)) := by
  induction fuel with
  | zero =>
    intro g hg
    have : fSt.nGroups - g = 0 := by omega
    rw [this]
    rfl
  | succ fuel ih =>
    intro g hg
    simp only [printGroupStat]
    by_cases hlt : g < fSt.nGroups
    · rw [if_pos hlt, ih (g + 1) (by omega)]
      have e : fSt.nGroups - g = (fSt.nGroups - (g + 1)) + 1 := by omega
      rw [e, List.range'_succ, List.flatMap_cons]
      rfl
    · rw [if_neg hlt]
      have : fSt.nGroups - g = 0 := by omega
      rw [this]
      rfl

theorem printAssignedTable_eq (fSt : FULL_STAT) (fuel : Nat) :
    ∀ g : Nat, fSt.nGroups - g ≤ fuel →
      printAssignedTable fSt fuel g =
        (List.range' g (fSt.nGroups - g)).flatMap
          (fun g => if fSt.assignedTable g = -1 then [' ', ' ', ' ', '.']
                    else rightAligned 4 (fSt.assignedTable g)) := by
  induction fuel with
  | zero =>
    intro g hg
    have : fSt.nGroups - g = 0 := by omega
    rw [this]
    rfl
  | succ fuel ih =>
    intro g hg
    simp only [printAssignedTable]
    by_cases hlt : g < fSt.nGroups
    · rw [if_pos hlt, ih (g + 1) (by omega)]
      have e : fSt.nGroups - g = (fSt.nGroups - (g + 1)) + 1 := by omega
      rw [e, List.range'_succ, List.flatMap_cons]
      by_cases ha : fSt.assignedTable g = -1
      · rw [if_neg (not_not.2 ha), if_pos ha]
        rfl
      · rw [if_pos ha, if_neg ha]
        rfl
    · rw [if_neg hlt]
      have : fSt.nGroups - g = 0 := by omega
      rw [this]
      rfl

theorem saveStateLine_eq (fSt : FULL_STAT) :
    saveStateLine fSt = specifiedFields fSt ++ ['\n'] := by
  simp only [saveStateLine, specifiedFields, printfD_eq_rightAligned,
    printGroupStat_eq fSt fSt.nGroups 0 (by omega),
    printAssignedTable_eq fSt fSt.nGroups 0 (by omega), Nat.sub_zero,
    ← List.range_eq_range']

theorem rightAligned_length (width : Nat) (v : Int)
    (h : (toString v).toList.length ≤ width) : (rightAligned width v).length = width :=
  padLeft_length width _ h

theorem flatMap_length_const {α : Type} (l : List Nat) (f : Nat → List α) (k N : Nat)
    (hl : ∀ g ∈ l, g < N) (h : ∀ g : Nat, g < N → (f g).length = k) :
    (l.flatMap f).length = k * l.length := by
  induction l with
  | nil => simp
  | cons x xs ih =>
    rw [List.flatMap_cons, List.length_append, h x (hl x (List.mem_cons_self _ _)),
      ih (fun g hg => hl g (List.mem_cons_of_mem _ hg)), List.length_cons]
    ring

theorem specifiedFields_length (fSt : FULL_STAT) (h : fitsFields fSt) :
    (specifiedFields fSt).length = 15 + 8 * fSt.nGroups := by
  obtain ⟨h1, h2, h3, h4, h5, h6⟩ := h
  have hg : ((List.range fSt.nGroups).flatMap
      (fun g => rightAligned 4 (fSt.st.groupStat g))).length = 4 * fSt.nGroups := by
    rw [flatMap_length_const _ _ 4 fSt.nGroups (fun g hg => List.mem_range.1 hg)
      (fun g hg => rightAligned_length 4 _ (h4 g hg)), List.length_range]
  have ht : ((List.range fSt.nGroups).flatMap
      (fun g => if fSt.assignedTable g = -1 then [' ', ' ', ' ', '.']
                else rightAligned 4 (fSt.assignedTable g))).length = 4 * fSt.nGroups := by
    rw [flatMap_length_const _ _ 4 fSt.nGroups (fun g hg => List.mem_range.1 hg) ?_,
      List.length_range]
    intro g hg
    show (if fSt.assignedTable g = -1 then [' ', ' ', ' ', '.']
          else rightAligned 4 (fSt.assignedTable g)).length = 4
    split
    · rfl
    · exact rightAligned_length 4 _ (h6 g hg)
  simp only [specifiedFields, List.length_append, hg, ht, rightAligned_length 3 _ h1,
    rightAligned_length 3 _ h2, rightAligned_length 3 _ h3, rightAligned_length 5 _ h5,
    List.length_singleton]
  omega

/-- C13: for every full state the line `saveState` appends is the three
statuses right-aligned in 3 columns each, one blank, the group statuses in 4
columns each for `g = 0 .. nGroups-1`, `groupsWaiting` in 5 columns, then
for `g = 0 .. nGroups-1` the assigned table in 4 columns or `   .` when it is
`-1`, then a newline; when every value fits its field the line holds
`15 + 8 * nGroups` characters before the newline. -/
theorem saveState_line_layout (fSt : FULL_STAT) :
    saveStateLine fSt = specifiedFields fSt ++ ['\n'] ∧
    (fitsFields fSt → (specifiedFields fSt).length = 15 + 8 * fSt.nGroups) :=
  ⟨saveStateLine_eq fSt, specifiedFields_length fSt⟩

/-- The line written for the state in which group 0 sits at table 0 and
group 1 waits. -/
theorem saveStateLine_afterSecondTable :
    saveStateLine afterSecondTable.fSt = "  0  0  1    0   0    1   0   .\n".toList ∧
    fitsFields afterSecondTable.fSt := by
  refine ⟨rfl, by decide, by decide, by decide, ?_, by decide, ?_⟩
  · intro g _
    exact show (toString (0 : Int)).toList.length ≤ 4 by decide
  · intro g hg
    have hg' : g < 2 := hg
    interval_cases g <;> decide

/-! ## The life cycle: proofs -/

theorem requestsRead_append (L1 L2 : List Event) :
    requestsRead (L1 ++ L2) = requestsRead L1 ++ requestsRead L2 := by
  induction L1 with
  | nil => rfl
  | cons e es ih =>
    cases e <;> simp [requestsRead, ih]

theorem provide_trace (c : ProbConst) (n : Int) (w w' : World)
    (h : provideTableOrWaitingRoom c n w = some w') :
    ∃ L, w'.trace = w.trace ++ L ∧ requestsRead L = [] ∧
      L.countP (isSemDown Sem.receptionistReq) = 0 := by
  by_cases ht : decideTableOrWait c w.fSt n = -1
  · rw [provide_wait_inv c n w w' h ht]
    exact ⟨_, rfl, rfl, by simp [isSemDown]⟩
  · rw [provide_seat_inv c n w w' h ht]
    exact ⟨_, rfl, rfl, by simp [isSemDown]⟩

theorem receive_trace (c : ProbConst) (n r0 : Int) (w w' : World)
    (h : receivePayment c n r0 w = some w') :
    ∃ L, w'.trace = w.trace ++ L ∧ requestsRead L = [] ∧
      L.countP (isSemDown Sem.receptionistReq) = 0 := by
  by_cases hg : nextAfterPayment c n r0 w = -1
  · rw [receive_none_inv c n r0 w w' h hg]
    exact ⟨_, rfl, rfl, by simp [isSemDown]⟩
  · rw [receive_seat_inv c n r0 w w' h hg]
    exact ⟨_, rfl, rfl, by simp [isSemDown]⟩

/-- One round of the loop on a request of one of the two kinds. -/
theorem dispatch_round (c : ProbConst) (req : request) (r0 : Int) (w : World)
    (hok : ∀ k, w.extOk k = true)
    (hkind : req.reqType = c.TABLEREQ ∨ req.reqType = c.BILLREQ)
    (hdist : c.TABLEREQ ≠ c.BILLREQ) :
    ∃ w' L, dispatch c req r0 w = some (w', [handlerFor c req]) ∧
      (req.reqType = c.BILLREQ → handlerFor c req = Handler.receivePayment req.reqGroup) ∧
      w'.fSt.nGroups = w.fSt.nGroups ∧ w'.extOk = w.extOk ∧
      w'.trace = w.trace ++ L ∧ requestsRead L = [] ∧
      L.countP (isSemDown Sem.receptionistReq) = 0 := by
  by_cases ht : req.reqType = c.TABLEREQ
  · obtain ⟨w', hw'⟩ := provide_returns c req.reqGroup w hok
    obtain ⟨L, hL⟩ := provide_trace c req.reqGroup w w' hw'
    obtain ⟨hN, hE, _⟩ := provide_result c req.reqGroup w w' hw'
    refine ⟨w', L, ?_, ?_, hN, hE, hL⟩
    · simp [dispatch, handlerFor, ht, hw']
    · intro hb
      exact absurd (ht.symm.trans hb) hdist
  · have hb : req.reqType = c.BILLREQ := hkind.resolve_left ht
    obtain ⟨w', hw'⟩ := receive_returns c req.reqGroup r0 w hok
    obtain ⟨L, hL⟩ := receive_trace c req.reqGroup r0 w w' hw'
    obtain ⟨hN, hE, _⟩ := receive_result c req.reqGroup r0 w w' hw'
    refine ⟨w', L, ?_, ?_, hN, hE, hL⟩
    · simp [dispatch, handlerFor, ht, if_pos hb, hw']
    · intro _
      simp [handlerFor, ht]

/-- One call of `waitForGroup` on a slot holding `req`. -/
theorem waitForGroup_round (c : ProbConst) (req : request) (w : World)
    (hok : ∀ k, w.extOk k = true) :
    ∃ w1 L1, waitForGroup c (slotFilled req w) = some (req, w1) ∧
      w1.fSt.nGroups = w.fSt.nGroups ∧ w1.extOk = w.extOk ∧
      w1.trace = w.trace ++ L1 ∧ requestsRead L1 = [req] ∧
      L1.countP (isSemDown Sem.receptionistReq) = 1 := by
  have hok0 : ∀ k, (slotFilled req w).extOk k = true := hok
  refine ⟨_, _, waitForGroup_run c (slotFilled req w) hok0, rfl, rfl, rfl, rfl, ?_⟩
  simp [isSemDown]

theorem mainLoop_spec (c : ProbConst) (incoming : Nat → request) (junk : Nat → Int)
    (N : Nat) (hdist : c.TABLEREQ ≠ c.BILLREQ)
    (hkind : ∀ k, k < 2 * N →
      (incoming k).reqType = c.TABLEREQ ∨ (incoming k).reqType = c.BILLREQ)
    (fuel : Nat) :
    ∀ (nReq : Nat) (w : World) (calls : List Handler),
      (∀ k, w.extOk k = true) → w.fSt.nGroups = N → nReq ≤ 2 * N →
      2 * N - nReq + 1 ≤ fuel →
      ∃ w' L, mainLoop c incoming junk fuel nReq w calls =
          some (w', calls ++
            (List.range' nReq (2 * N - nReq)).map (fun k => handlerFor c (incoming k))) ∧
        w'.trace = w.trace ++ L ∧
        requestsRead L = (List.range' nReq (2 * N - nReq)).map incoming ∧
        L.countP (isSemDown Sem.receptionistReq) = 2 * N - nReq ∧
        w'.fSt.nGroups = N := by
  induction fuel with
  | zero =>
    intro nReq w calls _ _ _ hf
    omega
  | succ fuel ih =>
    intro nReq w calls hok hN hle hf
    simp only [mainLoop]
    by_cases hlt : nReq < w.fSt.nGroups * 2
    · rw [if_pos hlt]
      have hlt' : nReq < 2 * N := by rw [hN] at hlt; omega
      obtain ⟨w1, L1, hw, hN1, hE1, hT1, hR1, hC1⟩ :=
        waitForGroup_round c (incoming nReq) w hok
      rw [hw]
      simp only []
      obtain ⟨w2, L2, hd, _, hN2, hE2, hT2, hR2, hC2⟩ :=
        dispatch_round c (incoming nReq) (junk nReq) w1 (by rw [hE1]; exact hok)
          (hkind nReq hlt') hdist
      rw [hd]
      simp only []
      obtain ⟨w', L, hm, hT, hR, hC, hN'⟩ :=
        ih (nReq + 1) w2 (calls ++ [handlerFor c (incoming nReq)])
          (by rw [hE2, hE1]; exact hok) (by rw [hN2, hN1]; exact hN) (by omega) (by omega)
      have e : 2 * N - nReq = (2 * N - (nReq + 1)) + 1 := by omega
      refine ⟨w', L1 ++ L2 ++ L, ?_, ?_, ?_, ?_, hN'⟩
      · rw [hm, e, List.range'_succ, List.map_cons, List.append_assoc]
        rfl
      · rw [hT, hT2, hT1]
        simp only [List.append_assoc]
      · rw [requestsRead_append, requestsRead_append, hR1, hR2, hR, e, List.range'_succ,
          List.map_cons]
        rfl
      · rw [List.countP_append, List.countP_append, hC1, hC2, hC]
        omega
    · rw [if_neg hlt]
      have h0 : 2 * N - nReq = 0 := by rw [hN] at hlt; omega
      refine ⟨w, [], ?_, by simp, ?_, ?_, hN⟩
      · rw [h0]; simp
      · rw [h0]; rfl
      · rw [h0]; rfl

theorem twoGroupsRequests_kind (k : Nat) :
    (twoGroupsRequests k).reqType = oneTable.TABLEREQ ∨
      (twoGroupsRequests k).reqType = oneTable.BILLREQ := by
  by_cases h : k < 2
  · left
    show (if k < 2 then (1 : Int) else 2) = 1
    rw [if_pos h]
  · right
    show (if k < 2 then (1 : Int) else 2) = 2
    rw [if_neg h]

/-- C12: with `nGroups = N`, no primitive failing and every request in the
slot a table request or a bill request, the loop of `main` ends, after
calling `waitForGroup` exactly `2 * N` times; the handler calls it makes
are, in order, one for each request read: `provideTableOrWaitingRoom` for a
`TABLEREQ`, `receivePayment` for a `BILLREQ`, with the group of the
request. -/
theorem lifeCycle_serves_each_request (c : ProbConst) (incoming : Nat → request)
    (junk : Nat → Int) (w : World) (hok : ∀ k, w.extOk k = true)
    (hdist : c.TABLEREQ ≠ c.BILLREQ)
    (hkind : ∀ k, k < 2 * w.fSt.nGroups →
      (incoming k).reqType = c.TABLEREQ ∨ (incoming k).reqType = c.BILLREQ) :
    ∃ w' calls, lifeCycle c incoming junk w = some (w', calls) ∧
      (opTrace w w').countP (isSemDown Sem.receptionistReq) = 2 * w.fSt.nGroups ∧
      requestsRead (opTrace w w') = (List.range (2 * w.fSt.nGroups)).map incoming ∧
      calls = (requestsRead (opTrace w w')).map (handlerFor c) ∧
      calls.length = 2 * w.fSt.nGroups ∧
      (∀ req : request, req.reqType = c.TABLEREQ →
        handlerFor c req = Handler.provideTableOrWaitingRoom req.reqGroup) ∧
      (∀ req : request, req.reqType = c.BILLREQ →
        handlerFor c req = Handler.receivePayment req.reqGroup) := by
  obtain ⟨w', L, hm, hT, hR, hC, _⟩ :=
    mainLoop_spec c incoming junk w.fSt.nGroups hdist hkind (w.fSt.nGroups * 2 + 1) 0 w []
      hok rfl (Nat.zero_le _) (by omega)
  rw [Nat.sub_zero, ← List.range_eq_range'] at hm hR
  rw [Nat.sub_zero] at hC
  rw [List.nil_append] at hm
  refine ⟨w', _, hm, ?_, ?_, ?_, ?_, ?_, ?_⟩
  · rw [opTrace_of_append w w' L hT]; exact hC
  · rw [opTrace_of_append w w' L hT]; exact hR
  · rw [opTrace_of_append w w' L hT, hR, List.map_map]
    rfl
  · simp
  · intro req h
    simp [handlerFor, h]
  · intro req h
    have hne : ¬ req.reqType = c.TABLEREQ := fun e => hdist (e.symm.trans h)
    simp [handlerFor, hne]

theorem lifeCycle_serves_each_request_witness :
    (∀ k, twoGroupsStart.extOk k = true) ∧ oneTable.TABLEREQ ≠ oneTable.BILLREQ ∧
    (∀ k, k < 2 * twoGroupsStart.fSt.nGroups →
      (twoGroupsRequests k).reqType = oneTable.TABLEREQ ∨
        (twoGroupsRequests k).reqType = oneTable.BILLREQ) ∧
    ∃ w' calls, lifeCycle oneTable twoGroupsRequests (fun _ => 7) twoGroupsStart
        = some (w', calls) ∧
      (opTrace twoGroupsStart w').countP (isSemDown Sem.receptionistReq) = 4 ∧
      calls.length = 4 := by
  refine ⟨fun _ => rfl, by decide, fun k _ => twoGroupsRequests_kind k, ?_⟩
  obtain ⟨w', calls, h, h1, _, _, h2, _⟩ :=
    lifeCycle_serves_each_request oneTable twoGroupsRequests (fun _ => 7) twoGroupsStart
      (fun _ => rfl) (by decide) (fun k _ => twoGroupsRequests_kind k)
  exact ⟨w', calls, h, h1, h2⟩

/-- C2: in every state a valid run reaches, `decideNextGroup ()` returns `-1`
when `groupsWaiting == 0` and otherwise the lowest index below `nGroups`
whose ledger entry is `WAIT`, whatever the uninitialised local held. This
holds on the state itself and on the state in which `receivePayment (n)`,
for a seated group `n`, makes the call (ledger entry of `n` set to `DONE`,
`assignedTable[n]` cleared). -/
theorem decideNextGroup_contract (c : ProbConst) (w : World) (h : Reachable c w)
    (r0 : Int) :
    ((w.fSt.groupsWaiting = 0 ∧ decideNextGroup w.fSt w.groupRecord r0 = -1) ∨
      (w.fSt.groupsWaiting ≠ 0 ∧
        lowestWaiting w.fSt w.groupRecord (decideNextGroup w.fSt w.groupRecord r0))) ∧
    (∀ n : Int, w.groupRecord n = ATTABLE →
      ((paidState c n w.fSt).groupsWaiting = 0 ∧
        decideNextGroup (paidState c n w.fSt) (store w.groupRecord n DONE) r0 = -1) ∨
      ((paidState c n w.fSt).groupsWaiting ≠ 0 ∧
        lowestWaiting (paidState c n w.fSt) (store w.groupRecord n DONE)
          (decideNextGroup (paidState c n w.fSt) (store w.groupRecord n DONE) r0))) := by
  have hc := reachable_consistent c w h
  refine ⟨?_, ?_⟩
  · rcases decideNextGroup_cases w.fSt w.groupRecord r0 with h1 | h2 | ⟨hne, _, hall⟩
    · exact Or.inl h1
    · exact Or.inr h2
    · exfalso
      have hb : w.fSt.groupsWaiting = (waitingCount w.groupRecord w.fSt.nGroups : Int) :=
        hc.2.1
      rw [waitingCount_eq_zero w.groupRecord w.fSt.nGroups hall] at hb
      exact hne hb
  · intro n hr
    by_cases hz : w.fSt.groupsWaiting = 0
    · exact Or.inl ⟨hz, next_none_of_idle c n r0 w hz⟩
    · exact Or.inr ⟨hz, next_of_waiting c n r0 w hc hr hz⟩

theorem decideNextGroup_contract_witness :
    Reachable oneTable afterSecondTable ∧
    ((afterSecondTable.fSt.groupsWaiting = 0 ∧
        decideNextGroup afterSecondTable.fSt afterSecondTable.groupRecord 7 = -1) ∨
      (afterSecondTable.fSt.groupsWaiting ≠ 0 ∧
        lowestWaiting afterSecondTable.fSt afterSecondTable.groupRecord
          (decideNextGroup afterSecondTable.fSt afterSecondTable.groupRecord 7))) ∧
    decideNextGroup afterSecondTable.fSt afterSecondTable.groupRecord 7 = 1 :=
  ⟨reachable_afterSecondTable,
    (decideNextGroup_contract oneTable afterSecondTable reachable_afterSecondTable 7).1,
    rfl⟩

end Receptionist
